import Mathlib

/-!
# Verification of the rxrevolt-chain Proof-of-Pinning core

This file gives a shallow embedding, in Lean 4, of the consensus-critical parts
of the rxrevolt-chain repository:

* `src/ipfs_integration/merkle_proof.hpp` — chunking, Merkle-tree
  construction, proof-blob serialization (`GenerateProof`) and
  verification (`VerifyProof`);
* `src/consensus/pop_consensus.hpp` — challenge state, response collection,
  `ValidateResponses`, `extractRootFromProof`;
* `src/pinner/proof_generator.hpp` — `GenerateRandomOffsets`;
* `src/consensus/cid_randomness.hpp` — `selectRandomCIDs`;
* `src/consensus/reward_scheduler.hpp` — streak accounting and
  `DistributeRewards` (including its IEEE-754 `double` arithmetic);
* `src/core/block.hpp`, `src/core/transaction.hpp`,
  `src/consensus/block_validation.hpp` — block structures and `checkBlockRules`.

Byte sequences (`std::vector<uint8_t>`, `std::string`) are modelled by
`Buffer`: a length together with the big-endian base-256 value of the bytes.
This encoding is bijective on well-formed buffers (`Buffer.WF`) and lets every
byte-level operation of the C++ code be expressed by natural-number
arithmetic.  SHA-256 (the repository delegates to OpenSSL) is implemented in
full (FIPS 180-4).  Randomness (`std::mt19937` through
`uniform_int_distribution`) is modelled by oracle functions `draws : ℕ → ℕ`
giving the sampled values; theorems quantify over all oracles whose samples
are in the distribution's range.  C++ `double` arithmetic is modelled exactly
by rationals with correct IEEE-754 binary64 rounding (round to nearest, ties
to even).
-/

set_option maxRecDepth 20000

namespace RxRevolt

/-! ## Byte buffers -/

/-- A byte sequence of length `size`, stored big-endian: `data` is the integer
whose base-256 digits (most significant first) are the bytes.  `⟨3, 0x612062⟩`
is the string `"a b"`. -/
structure Buffer where
  size : ℕ
  data : ℕ
  deriving DecidableEq, Repr

namespace Buffer

/-- well-formedness: every byte fits in 8 bits. -/
def WF (b : Buffer) : Prop := b.data < 256 ^ b.size

def empty : Buffer := ⟨0, 0⟩

/-- concatenation of byte sequences. -/
def append (a b : Buffer) : Buffer := ⟨a.size + b.size, a.data * 256 ^ b.size + b.data⟩

instance : HAppend Buffer Buffer Buffer := ⟨append⟩

/-- the first `n` bytes (everything when `n > size`). -/
def take (b : Buffer) (n : ℕ) : Buffer :=
  if n ≤ b.size then ⟨n, b.data / 256 ^ (b.size - n)⟩ else b

/-- all but the first `n` bytes. -/
def drop (b : Buffer) (n : ℕ) : Buffer :=
  if n ≤ b.size then ⟨b.size - n, b.data % 256 ^ (b.size - n)⟩ else empty

/-- the `n` bytes starting at position `pos` (meaningful when
`pos + n ≤ size`). -/
def slice (b : Buffer) (pos n : ℕ) : Buffer := (b.drop pos).take n

/-- the byte at index `i` (0 when out of range). -/
def byteAt (b : Buffer) (i : ℕ) : ℕ :=
  if i < b.size then b.data / 256 ^ (b.size - i - 1) % 256 else 0

/-- the big-endian 32-bit value of bytes `[pos, pos+4)`; this equals the
`(b[pos] << 24) | (b[pos+1] << 16) | (b[pos+2] << 8) | b[pos+3]` of the C++
decoders (meaningful when `pos + 4 ≤ size`). -/
def u32at (b : Buffer) (pos : ℕ) : ℕ :=
  b.data / 256 ^ (b.size - pos - 4) % 4294967296

/-- a single byte (`push_back` truncates to 8 bits). -/
def byte (v : ℕ) : Buffer := ⟨1, v % 256⟩

/-- buffer from a list of byte values. -/
def ofList (l : List ℕ) : Buffer := l.foldl (fun b v => b ++ byte v) empty

/-- `count` zero bytes. -/
def zeros (count : ℕ) : Buffer := ⟨count, 0⟩

/-- replace the byte at index `i` by `v` (`buf[i] = v`). -/
def setByte (b : Buffer) (i v : ℕ) : Buffer := (b.take i ++ byte v) ++ b.drop (i + 1)

end Buffer

/-! ## SHA-256 (FIPS 180-4)

Models `rxrevoltchain::util::hashing::sha256` (`src/util/hashing.hpp`), which
computes the standard OpenSSL SHA-256 digest of the input bytes and returns it
as a 64-character lowercase-hex string. -/

namespace SHA256

def mask32 : ℕ := 4294967295

def rotr (n x : ℕ) : ℕ := ((x >>> n) ||| (x <<< (32 - n))) &&& mask32

def ch (x y z : ℕ) : ℕ := (x &&& y) ^^^ ((x ^^^ mask32) &&& z)

def maj (x y z : ℕ) : ℕ := (x &&& y) ^^^ (x &&& z) ^^^ (y &&& z)

def bsig0 (x : ℕ) : ℕ := rotr 2 x ^^^ rotr 13 x ^^^ rotr 22 x

def bsig1 (x : ℕ) : ℕ := rotr 6 x ^^^ rotr 11 x ^^^ rotr 25 x

def ssig0 (x : ℕ) : ℕ := rotr 7 x ^^^ rotr 18 x ^^^ (x >>> 3)

def ssig1 (x : ℕ) : ℕ := rotr 17 x ^^^ rotr 19 x ^^^ (x >>> 10)

/-- the eight 32-bit working variables. -/
structure St where
  a : ℕ
  b : ℕ
  c : ℕ
  d : ℕ
  e : ℕ
  f : ℕ
  g : ℕ
  h : ℕ

/-- sliding window of 16 message-schedule words: at round `t`, `w0 = W[t]`
(the word consumed by the round) and `w15 = W[t+15]`. -/
structure Win where
  w0 : ℕ
  w1 : ℕ
  w2 : ℕ
  w3 : ℕ
  w4 : ℕ
  w5 : ℕ
  w6 : ℕ
  w7 : ℕ
  w8 : ℕ
  w9 : ℕ
  w10 : ℕ
  w11 : ℕ
  w12 : ℕ
  w13 : ℕ
  w14 : ℕ
  w15 : ℕ

def Kconst : List ℕ :=
  [1116352408, 1899447441, 3049323471, 3921009573, 961987163, 1508970993,
   2453635748, 2870763221, 3624381080, 310598401, 607225278, 1426881987,
   1925078388, 2162078206, 2614888103, 3248222580, 3835390401, 4022224774,
   264347078, 604807628, 770255983, 1249150122, 1555081692, 1996064986,
   2554220882, 2821834349, 2952996808, 3210313671, 3336571891, 3584528711,
   113926993, 338241895, 666307205, 773529912, 1294757372, 1396182291,
   1695183700, 1986661051, 2177026350, 2456956037, 2730485921, 2820302411,
   3259730800, 3345764771, 3516065817, 3600352804, 4094571909, 275423344,
   430227734, 506948616, 659060556, 883997877, 958139571, 1322822218,
   1537002063, 1747873779, 1955562222, 2024104815, 2227730452, 2361852424,
   2428436474, 2756734187, 3204031479, 3329325298]

def H0 : St :=
  ⟨1779033703, 3144134277, 1013904242, 2773480762, 1359893119, 2600822924,
   528734635, 1541459225⟩

/-- one compression round (consuming `w.w0` and one constant of `ks`) fused
with one message-schedule extension step. -/
def rounds : List ℕ → Win → St → St
  | [], _, s => s
  | k :: ks, w, s =>
    let t1 := (s.h + bsig1 s.e + ch s.e s.f s.g + k + w.w0) &&& mask32
    let t2 := (bsig0 s.a + maj s.a s.b s.c) &&& mask32
    let nw := (ssig1 w.w14 + w.w9 + ssig0 w.w1 + w.w0) &&& mask32
    rounds ks
      ⟨w.w1, w.w2, w.w3, w.w4, w.w5, w.w6, w.w7, w.w8, w.w9, w.w10, w.w11, w.w12, w.w13, w.w14,
       w.w15, nw⟩
      ⟨(t1 + t2) &&& mask32, s.a, s.b, s.c, (s.d + t1) &&& mask32, s.e, s.f, s.g⟩

/-- the 16 message words of block `blk` of the padded buffer. -/
def initWin (p : Buffer) (blk : ℕ) : Win :=
  ⟨p.u32at (64 * blk), p.u32at (64 * blk + 4), p.u32at (64 * blk + 8), p.u32at (64 * blk + 12),
   p.u32at (64 * blk + 16), p.u32at (64 * blk + 20), p.u32at (64 * blk + 24),
   p.u32at (64 * blk + 28), p.u32at (64 * blk + 32), p.u32at (64 * blk + 36),
   p.u32at (64 * blk + 40), p.u32at (64 * blk + 44), p.u32at (64 * blk + 48),
   p.u32at (64 * blk + 52), p.u32at (64 * blk + 56), p.u32at (64 * blk + 60)⟩

def compress (p : Buffer) (blk : ℕ) (h : St) : St :=
  let s := rounds Kconst (initWin p blk) h
  ⟨(h.a + s.a) &&& mask32, (h.b + s.b) &&& mask32, (h.c + s.c) &&& mask32,
   (h.d + s.d) &&& mask32, (h.e + s.e) &&& mask32, (h.f + s.f) &&& mask32,
   (h.g + s.g) &&& mask32, (h.h + s.h) &&& mask32⟩

/-- iterate `compress` over `n` blocks starting at block `blk`.  The redundant
match on `t.a` makes kernel reduction normalise each block's state before the
next block is entered, keeping the reduction stack shallow. -/
def blocksGo (p : Buffer) : ℕ → ℕ → St → St
  | _, 0, s => s
  | blk, n + 1, s =>
    let t := compress p blk s
    match t.a with
    | 0 => blocksGo p (blk + 1) n t
    | _ + 1 => blocksGo p (blk + 1) n t

/-- SHA-256 padding: append `0x80`, zero bytes to the next 56 mod 64 boundary,
then the 64-bit big-endian message bit length. -/
def padBuf (msg : Buffer) : Buffer :=
  let r := (msg.size + 1) % 64
  let z := if r ≤ 56 then 56 - r else 120 - r
  ((msg ++ Buffer.byte 128) ++ Buffer.zeros z) ++ ⟨8, (msg.size * 8) % 2 ^ 64⟩

/-- ASCII code of a lowercase hex digit. -/
def hexDigit (n : ℕ) : ℕ := if n < 10 then 48 + n else 87 + n

/-- 8 lowercase hex characters of a 32-bit word. -/
def wordHex (w : ℕ) : Buffer :=
  Buffer.ofList [hexDigit (w >>> 28 % 16), hexDigit (w >>> 24 % 16), hexDigit (w >>> 20 % 16),
    hexDigit (w >>> 16 % 16), hexDigit (w >>> 12 % 16), hexDigit (w >>> 8 % 16),
    hexDigit (w >>> 4 % 16), hexDigit (w % 16)]

def digest (s : St) : Buffer :=
  ((((((wordHex s.a ++ wordHex s.b) ++ wordHex s.c) ++ wordHex s.d) ++ wordHex s.e) ++
    wordHex s.f) ++ wordHex s.g) ++ wordHex s.h

end SHA256

/-- SHA-256 digest of a byte buffer, hex-encoded in lowercase: models
`rxrevoltchain::util::hashing::sha256` from `src/util/hashing.hpp`. -/
def sha256 (msg : Buffer) : Buffer :=
  let p := SHA256.padBuf msg
  SHA256.digest (SHA256.blocksGo p 0 (p.size / 64) SHA256.H0)

/-! ## MerkleProof (`src/ipfs_integration/merkle_proof.hpp`)

`GenerateProof` takes the file contents as an in-memory buffer (the C++ method
takes a path and reads the file; `readFile` is modelled as "the bytes are
given").  The chunk size is the hard-coded `CHUNK_SIZE = 4096`. -/

namespace MerkleProof

/-- `chunkFile` loop body; the fuel argument only serves termination (the C++
`while (offset < totalSize)` loop advances by `min chunkSize remaining` bytes
each iteration, so `fileData.size` iterations always suffice for
`chunkSize > 0`, the only way it is called). -/
def chunkFileGo : ℕ → Buffer → ℕ → List Buffer
  | 0, _, _ => []
  | fuel + 1, rest, cs =>
    if rest.size = 0 then []
    else
      let thisSize := min cs rest.size
      rest.take thisSize :: chunkFileGo fuel (rest.drop thisSize) cs

/-- splits `fileData` into chunks of `chunkSize` bytes, the last chunk possibly
shorter (`MerkleProof::chunkFile`). -/
def chunkFile (fileData : Buffer) (chunkSize : ℕ) : List Buffer :=
  chunkFileGo fileData.size fileData chunkSize

/-- one parent level of the tree: adjacent pairs are combined by hashing the
concatenation of their hex digests; an odd trailing element is carried up
unchanged (the `for (i += 2)` loop of `buildMerkleTree`, also the layer loop of
`block_validation.hpp`). -/
def parentLevel : List Buffer → List Buffer
  | a :: b :: rest => sha256 (a ++ b) :: parentLevel rest
  | [a] => [a]
  | [] => []

/-- the `while (treeLevels.back().size() > 1)` loop; fuel only serves
termination (each parent level is strictly shorter, so `leaves.length` levels
always suffice). -/
def buildLevels : ℕ → List Buffer → List (List Buffer)
  | 0, l => [l]
  | fuel + 1, l => if l.length ≤ 1 then [l] else l :: buildLevels fuel (parentLevel l)

/-- `MerkleProof::buildMerkleTree`: level 0 is the leaves; the root is the
single element of the last level; empty leaves give an empty tree and root. -/
def buildMerkleTree (leaves : List Buffer) : List (List Buffer) × Buffer :=
  if leaves.isEmpty then ([], Buffer.empty)
  else
    let tl := buildLevels leaves.length leaves
    (tl, (tl.getLastD []).headD Buffer.empty)

/-- `MerkleProof::getMerklePath`: walking levels `0 .. size-2`, record the
sibling (`idx ^ 1`) when it exists, then `idx >>= 1`. -/
def getMerklePathGo : List (List Buffer) → ℕ → List Buffer
  | lv :: next :: rest, idx =>
    let sib := if idx % 2 = 0 then idx + 1 else idx - 1
    (if sib < lv.length then [lv.getD sib Buffer.empty] else []) ++
      getMerklePathGo (next :: rest) (idx >>> 1)
  | _, _ => []

def getMerklePath (treeLevels : List (List Buffer)) (leafIndex : ℕ) : List Buffer :=
  getMerklePathGo treeLevels leafIndex

/-- `MerkleProof::writeUint32`: append the 4 big-endian bytes of
`static_cast<uint32_t>(val)`; as a big-endian buffer this is the 4-byte
buffer whose value is `val % 2^32`. -/
def writeUint32 (out : Buffer) (val : ℕ) : Buffer := out ++ ⟨4, val % 4294967296⟩

/-- `MerkleProof::GenerateProof` on in-memory file contents.  Offsets `≥`
the chunk count are skipped.  Layout: `chunkSize, totalChunks, numOffsets,
{offsetIndex, chunkLen, chunkBytes, pathLen, {sibLen, sibBytes}*}*,
rootLen, rootBytes`, all counts 32-bit big-endian. -/
def GenerateProof (fileData : Buffer) (offsets : List ℕ) : Buffer :=
  let chunks := chunkFile fileData 4096
  let leaves := chunks.map sha256
  let tree := buildMerkleTree leaves
  let validOffsets := (offsets.filter (fun o => o < chunks.length)).length
  let header := writeUint32 (writeUint32 (writeUint32 Buffer.empty 4096) chunks.length)
    validOffsets
  let body := offsets.foldl (fun acc off =>
    if off < chunks.length then
      let chunkData := chunks.getD off Buffer.empty
      let path := getMerklePath tree.1 off
      path.foldl (fun a sib => writeUint32 a sib.size ++ sib)
        (writeUint32 (writeUint32 (writeUint32 acc off) chunkData.size ++ chunkData) path.length)
    else acc) header
  writeUint32 body tree.2.size ++ tree.2

/-- one decoded `OffsetProof` of `VerifyProof`. -/
structure OffsetProof where
  offsetIndex : ℕ
  chunkData : Buffer
  path : List Buffer
  deriving DecidableEq, Repr

/-- the `readU32` lambda of `VerifyProof`: big-endian 32-bit read with bounds
check, returning the value and the advanced position. -/
def readU32 (b : Buffer) (pos : ℕ) : Option (ℕ × ℕ) :=
  if pos + 4 ≤ b.size then some (b.u32at pos, pos + 4) else none

/-- a bounds-checked raw byte read of length `n`. -/
def readBytes (b : Buffer) (pos n : ℕ) : Option (Buffer × ℕ) :=
  if pos + n ≤ b.size then some (b.slice pos n, pos + n) else none

/-- the inner sibling-path loop of `VerifyProof`'s parsing phase. -/
def parsePath (b : Buffer) : ℕ → ℕ → Option (List Buffer × ℕ)
  | pos, 0 => some ([], pos)
  | pos, n + 1 =>
    match readU32 b pos with
    | none => none
    | some (hashSize, p1) =>
      match readBytes b p1 hashSize with
      | none => none
      | some (sib, p2) =>
        match parsePath b p2 n with
        | none => none
        | some (rest, p3) => some (sib :: rest, p3)

/-- the `for (i < numOffsets)` loop of `VerifyProof`'s parsing phase. -/
def parseOffsets (b : Buffer) : ℕ → ℕ → Option (List OffsetProof × ℕ)
  | pos, 0 => some ([], pos)
  | pos, n + 1 =>
    match readU32 b pos with
    | none => none
    | some (offsetIndex, p1) =>
      match readU32 b p1 with
      | none => none
      | some (cdl, p2) =>
        match readBytes b p2 cdl with
        | none => none
        | some (chunkData, p3) =>
          match readU32 b p3 with
          | none => none
          | some (pathLen, p4) =>
            match parsePath b p4 pathLen with
            | none => none
            | some (path, p5) =>
              match parseOffsets b p5 n with
              | none => none
              | some (rest, p6) => some (⟨offsetIndex, chunkData, path⟩ :: rest, p6)

/-- the decoded form of a proof blob. -/
structure ParsedProof where
  chunkSize : ℕ
  totalChunks : ℕ
  ops : List OffsetProof
  root : Buffer
  deriving DecidableEq, Repr

/-- the parsing phase of `MerkleProof::VerifyProof` (lines 186–281): reads
`chunkSize`, `totalChunks`, `numOffsets`, the offset blocks and the root,
failing (`return false` in C++) whenever a read would pass the end of the
buffer.  Also returns the final read position. -/
def parseProof (b : Buffer) : Option (ParsedProof × ℕ) :=
  match readU32 b 0 with
  | none => none
  | some (chunkSize, p1) =>
    match readU32 b p1 with
    | none => none
    | some (totalChunks, p2) =>
      match readU32 b p2 with
      | none => none
      | some (numOffsets, p3) =>
        match parseOffsets b p3 numOffsets with
        | none => none
        | some (ops, p4) =>
          match readU32 b p4 with
          | none => none
          | some (rootHashSize, p5) =>
            match readBytes b p5 rootHashSize with
            | none => none
            | some (root, p6) => some (⟨chunkSize, totalChunks, ops, root⟩, p6)

/-- the verification climb of `VerifyProof`: from the chunk hash, combine with
each stored sibling — on the left when the current index is odd, on the right
when it is even — halving the index after every sibling. -/
def climb (cur : Buffer) (idx : ℕ) : List Buffer → Buffer
  | [] => cur
  | sib :: rest =>
    climb (if idx % 2 = 1 then sha256 (sib ++ cur) else sha256 (cur ++ sib)) (idx >>> 1) rest

/-- one offset's claim: hash the embedded chunk data, climb the stored path,
compare with the stored root. -/
def checkOffset (root : Buffer) (op : OffsetProof) : Bool :=
  climb (sha256 op.chunkData) op.offsetIndex op.path == root

/-- `MerkleProof::VerifyProof`: decode the blob (false on any out-of-bounds
read), then check every offset's claim against the stored root. -/
def VerifyProof (proofData : Buffer) : Bool :=
  match parseProof proofData with
  | none => false
  | some (pp, _) => pp.ops.all (checkOffset pp.root)

end MerkleProof

/-! ## PoPConsensus (`src/consensus/pop_consensus.hpp`)

Mutable engine state becomes explicit state passing.  `unordered_map` /
`unordered_set` members become association lists / lists; element membership
and per-key values are what the code observes, and the theorems below only
depend on those.  `std::chrono` timestamps are omitted from the challenge
history records.  Randomness is passed in as oracle values (see
`GenerateRandomOffsets`). -/

namespace PoPConsensus

open MerkleProof

/-- the skip-reads of `extractRootFromProof` over one sibling-path block. -/
def skipPath (b : Buffer) : ℕ → ℕ → Option ℕ
  | pos, 0 => some pos
  | pos, n + 1 =>
    match readU32 b pos with
    | none => none
    | some (hlen, p1) => if p1 + hlen ≤ b.size then skipPath b (p1 + hlen) n else none

/-- the skip-reads of `extractRootFromProof` over the offset blocks. -/
def skipOffsets (b : Buffer) : ℕ → ℕ → Option ℕ
  | pos, 0 => some pos
  | pos, n + 1 =>
    match readU32 b pos with
    | none => none
    | some (_idx, p1) =>
      match readU32 b p1 with
      | none => none
      | some (len, p2) =>
        if p2 + len ≤ b.size then
          match readU32 b (p2 + len) with
          | none => none
          | some (pathLen, p3) =>
            match skipPath b p3 pathLen with
            | none => none
            | some p4 => skipOffsets b p4 n
        else none

/-- `PoPConsensus::extractRootFromProof`: skip the header and the offset
blocks, then return the trailing root string; the empty string on any
out-of-bounds read. -/
def extractRootFromProof (proof : Buffer) : Buffer :=
  match readU32 proof 0 with
  | none => Buffer.empty
  | some (_chunkSize, p1) =>
    match readU32 proof p1 with
    | none => Buffer.empty
    | some (_totalChunks, p2) =>
      match readU32 proof p2 with
      | none => Buffer.empty
      | some (numOffsets, p3) =>
        match skipOffsets proof p3 numOffsets with
        | none => Buffer.empty
        | some p4 =>
          match readU32 proof p4 with
          | none => Buffer.empty
          | some (rootLen, p5) =>
            if p5 + rootLen ≤ proof.size then proof.slice p5 rootLen else Buffer.empty

/-- `buf[i] ^= key[i % key.size()]` over the whole buffer (`xorBufferWithKey`);
identity when the key is empty. -/
def xorBufferWithKey (key buf : Buffer) : Buffer :=
  if key.size = 0 then buf
  else
    (List.range buf.size).foldl
      (fun acc i => acc ++ Buffer.byte (buf.byteAt i ^^^ key.byteAt (i % key.size)))
      Buffer.empty

/-- one recorded challenge round (`ChallengeRecord`, without the
`std::chrono` timestamp). -/
structure ChallengeRecord where
  cid : Buffer
  merkleRoot : Buffer
  passingNodes : List Buffer
  deriving DecidableEq, Repr

/-- the mutable state of a `PoPConsensus` engine. -/
structure State where
  lastCID : Buffer
  currentFilePath : Buffer
  offsets : List ℕ
  currentChallengeRoot : Buffer
  challengeNodeResponses : List (Buffer × Buffer)
  passingNodes : List Buffer
  history : List ChallengeRecord
  useEncryption : Bool
  encKey : Buffer
  deriving Repr

/-- a freshly constructed engine. -/
def initState : State :=
  ⟨Buffer.empty, Buffer.empty, [], Buffer.empty, [], [], [], false, Buffer.empty⟩

def historyLimit : ℕ := 50

/-- update-or-insert for the `m_challengeNodeResponses` map. -/
def storeResponse : List (Buffer × Buffer) → Buffer → Buffer → List (Buffer × Buffer)
  | [], n, d => [(n, d)]
  | (k, v) :: rest, n, d =>
    if k = n then (k, d) :: rest else (k, v) :: storeResponse rest n d

/-- `PoPConsensus::CollectResponse`: store (overwrite) the node's raw bytes. -/
def CollectResponse (st : State) (nodeID : Buffer) (data : Buffer) : State :=
  { st with challengeNodeResponses := storeResponse st.challengeNodeResponses nodeID data }

/-- whether one collected response passes: it must decode and verify
(`VerifyProof`) and its stored root must equal the current challenge root. -/
def responsePasses (st : State) (data : Buffer) : Bool :=
  let response := if st.useEncryption then xorBufferWithKey st.encKey data else data
  VerifyProof response && (extractRootFromProof response == st.currentChallengeRoot)

/-- `PoPConsensus::ValidateResponses`: false immediately when no challenge
root is set; otherwise each collected response is adjudicated independently,
the passing set is rebuilt, a history record is appended (evicting the oldest
past the 50-round limit), and the result is whether any node passed. -/
def ValidateResponses (st : State) : Bool × State :=
  if st.currentChallengeRoot.size = 0 then (false, st)
  else
    let passing := st.challengeNodeResponses.foldl
      (fun acc nr => if responsePasses st nr.2 then acc ++ [nr.1] else acc) []
    let anyPassed := !passing.isEmpty
    let hist := st.history ++ [⟨st.lastCID, st.currentChallengeRoot, passing⟩]
    let hist' := if historyLimit < hist.length then hist.drop 1 else hist
    (anyPassed, { st with passingNodes := passing, history := hist' })

end PoPConsensus

/-! ## ProofGenerator (`src/pinner/proof_generator.hpp`) and
`selectRandomCIDs` (`src/consensus/cid_randomness.hpp`)

`std::mt19937` sampling through `uniform_int_distribution(lo, hi)` is
modelled by an oracle `draws : ℕ → ℕ` giving the successive sampled values;
theorems hypothesise that each sample lies in the distribution's range. -/

namespace ProofGenerator

/-- `ProofGenerator::GenerateRandomOffsets`: for `fileSize` and `count` both
nonzero, take `count` samples of `uniform_int_distribution(0, fileSize-1)` —
these are byte positions in the file, drawn independently (with
replacement).  `draws i` is the `i`-th sampled value. -/
def GenerateRandomOffsets (fileSize count : ℕ) (draws : ℕ → ℕ) : List ℕ :=
  if fileSize = 0 ∨ count = 0 then []
  else (List.range count).map draws

end ProofGenerator

namespace CidRandomness

/-- swap of two positions of a list (`std::swap(copy[i], copy[j])`); identity
when an index is out of range (the C++ would be undefined there; the theorems
only use in-range indices). -/
def swapAt (l : List α) (i j : ℕ) : List α :=
  match l[i]?, l[j]? with
  | some a, some b => (l.set i b).set j a
  | _, _ => l

/-- the Fisher–Yates loop of `selectRandomCIDs`: `for (i = size-1; i > 0; i--)`
with `j = uniform_int_distribution(0, i)(rng)`, swapping when `j ≠ i`.
`draws i` is the value sampled at loop index `i`. -/
def shuffleGo (draws : ℕ → ℕ) : ℕ → List α → List α
  | 0, l => l
  | i + 1, l =>
    shuffleGo draws i
      (if draws (i + 1) ≠ i + 1 then swapAt l (i + 1) (draws (i + 1)) else l)

/-- `selectRandomCIDs`: throws (`Except.error`) when `count` exceeds the
population; otherwise shuffles a copy and returns its first `count` elements.
For an empty population the C++ loop index `copy.size() - 1` underflows
(`size_t`) and the first iteration indexes out of bounds — undefined
behaviour; in the model the swaps are out-of-range no-ops, and the theorems
about the shuffle restrict to nonempty populations. -/
def selectRandomCIDs (allCIDs : List Buffer) (count : ℕ) (draws : ℕ → ℕ) :
    Except String (List Buffer) :=
  if allCIDs.length < count then
    Except.error "selectRandomCIDs: count exceeds the size of allCIDs."
  else Except.ok ((shuffleGo draws (allCIDs.length - 1) allCIDs).take count)

end CidRandomness

namespace PoPConsensus

/-- `PoPConsensus::IssueChallenges` on in-memory file contents (the C++ stats
and reads `filePath`; a stat-able file is modelled as "the contents are
given").  `countDraw` is the sample of `uniform_int_distribution(3, 6)`
choosing how many offsets to request and `draws` the offset samples.  The
engine keeps the offsets, records the root of a locally generated reference
proof as the expected challenge root, and clears the previous round.
(The `useEncryption` flow is not exercised by any claim and is issued here
with encryption off, as every caller in the repository does.) -/
def IssueChallenges (st : State) (cid : Buffer) (fileData : Buffer) (countDraw : ℕ)
    (draws : ℕ → ℕ) : State :=
  let offsets := ProofGenerator.GenerateRandomOffsets fileData.size countDraw draws
  let proof := MerkleProof.GenerateProof fileData offsets
  if proof.size = 0 then st
  else
    { st with
      useEncryption := false
      currentFilePath := st.currentFilePath
      offsets := offsets
      currentChallengeRoot := extractRootFromProof proof
      challengeNodeResponses := []
      passingNodes := []
      lastCID := cid }

end PoPConsensus

/-! ## IEEE-754 binary64 arithmetic

`RewardScheduler::DistributeRewards` computes each reward as
`static_cast<uint64_t>(static_cast<double>(pool) * (static_cast<double>(streak)
/ static_cast<double>(total)))`.  C++ `double` on every deployment target is
IEEE-754 binary64 with round-to-nearest, ties-to-even; conversion, division
and multiplication are correctly rounded.  `F64.rnd` rounds a nonnegative
rational to the nearest binary64 value (53 significant bits; the inputs in
this development are far from overflow and underflow, so no
infinity/subnormal handling is needed). -/

namespace F64

/-- base-2 logarithm by structural recursion on fuel (the fuel `n` itself
always suffices, since the recursion halves `n`); `Nat.log2` is defined by
well-founded recursion, which kernel reduction cannot evaluate. -/
def log2Go : ℕ → ℕ → ℕ
  | 0, _ => 0
  | fuel + 1, n => if 2 ≤ n then log2Go fuel (n / 2) + 1 else 0

def natLog2 (n : ℕ) : ℕ := log2Go n n

/-- round the positive rational `q` to an integer multiple of `1/f`
(`f` a power of two), round-to-nearest with ties to even. -/
def rndWith (q f : ℚ) : ℚ :=
  let m0 : ℤ := (q * f).floor
  let frac : ℚ := q * f - (m0 : ℚ)
  let m : ℤ := if 1 / 2 < frac ∨ (frac = 1 / 2 ∧ m0 % 2 ≠ 0) then m0 + 1 else m0
  (m : ℚ) / f

/-- round a nonnegative rational to the nearest binary64 value. -/
def rnd (q : ℚ) : ℚ :=
  if q ≤ 0 then 0
  else
    let a := q.num.toNat
    let b := q.den
    let la := natLog2 a
    let lb := natLog2 b
    -- `f` scales `q` into `[2^51, 2^53)`; if the scaled value is below
    -- `2^52` the unit in the last place is half as large.
    let f : ℚ := if la ≤ 52 + lb then ((2 ^ (52 + lb - la) : ℕ) : ℚ)
      else 1 / ((2 ^ (la - 52 - lb) : ℕ) : ℚ)
    if q * f < 2 ^ 52 then rndWith q (2 * f) else rndWith q f

/-- `static_cast<double>` of an unsigned integer. -/
def ofNat (n : ℕ) : ℚ := rnd n

/-- `double` division. -/
def div (x y : ℚ) : ℚ := rnd (x / y)

/-- `double` multiplication. -/
def mul (x y : ℚ) : ℚ := rnd (x * y)

/-- `static_cast<uint64_t>` of a nonnegative `double`: truncation toward
zero. -/
def toUInt64 (q : ℚ) : ℕ := q.floor.toNat

end F64

/-! ## RewardScheduler (`src/consensus/reward_scheduler.hpp`)

The `unordered_map` members become association lists (`RecordPassingNodes`
appends new nodes; iteration order never affects any observed value).  The
disk persistence (`loadFromDisk`/`saveToDisk`) only round-trips the two maps
and is outside every claim; a freshly constructed scheduler whose storage
file does not exist starts with both maps empty. -/

namespace RewardScheduler

structure State where
  baseDailyReward : ℕ
  currentRewardPool : ℕ
  nodeStreaks : List (Buffer × ℕ)
  nodeBalances : List (Buffer × ℕ)
  deriving Repr

/-- a freshly constructed scheduler (no persisted state). -/
def initState : State := ⟨0, 0, [], []⟩

/-- `RewardScheduler::SetBaseDailyReward`. -/
def SetBaseDailyReward (st : State) (amount : ℕ) : State :=
  { st with baseDailyReward := amount }

/-- `m_nodeStreaks[node]` creation-or-increment. -/
def bumpStreak : List (Buffer × ℕ) → Buffer → List (Buffer × ℕ)
  | [], n => [(n, 1)]
  | (k, v) :: rest, n => if k = n then (k, v + 1) :: rest else (k, v) :: bumpStreak rest n

/-- `RewardScheduler::RecordPassingNodes`: add the daily reward to the pool
and increment (or create at 1) each passing node's streak. -/
def RecordPassingNodes (st : State) (nodeIDs : List Buffer) : State :=
  { st with
    currentRewardPool := st.currentRewardPool + st.baseDailyReward
    nodeStreaks := nodeIDs.foldl bumpStreak st.nodeStreaks }

/-- `m_nodeBalances[node] += amount` (creation at 0 then add). -/
def addBalance : List (Buffer × ℕ) → Buffer → ℕ → List (Buffer × ℕ)
  | [], n, amt => [(n, amt)]
  | (k, v) :: rest, n, amt =>
    if k = n then (k, v + amt) :: rest else (k, v) :: addBalance rest n amt

/-- the reward credited to one node:
`uint64(double(pool) * (double(streak) / double(total)))`. -/
def nodeReward (pool total streak : ℕ) : ℕ :=
  F64.toUInt64 (F64.mul (F64.ofNat pool) (F64.div (F64.ofNat streak) (F64.ofNat total)))

/-- `RewardScheduler::DistributeRewards`: false without mutation when the pool
is empty or the total streak is zero; otherwise credit every known account its
share and zero the pool. -/
def DistributeRewards (st : State) : Bool × State :=
  if st.currentRewardPool = 0 then (false, st)
  else
    let totalStreaks := (st.nodeStreaks.map (fun kv => kv.2)).sum
    if totalStreaks = 0 then (false, st)
    else
      let balances := st.nodeStreaks.foldl
        (fun bal kv => addBalance bal kv.1 (nodeReward st.currentRewardPool totalStreaks kv.2))
        st.nodeBalances
      (true, { st with currentRewardPool := 0, nodeBalances := balances })

/-- `RewardScheduler::GetBalance`. -/
def GetBalance (st : State) (nodeID : Buffer) : ℕ :=
  match st.nodeBalances.find? (fun kv => kv.1 == nodeID) with
  | none => 0
  | some kv => kv.2

/-- streak lookup (used by the concrete scenarios; the map defaults absent
nodes to no entry). -/
def GetStreak (st : State) (nodeID : Buffer) : ℕ :=
  match st.nodeStreaks.find? (fun kv => kv.1 == nodeID) with
  | none => 0
  | some kv => kv.2

end RewardScheduler

/-! ## Blocks and block-level validation (`src/core/transaction.hpp`,
`src/core/block.hpp`, `src/consensus/block_validation.hpp`) -/

namespace BlockValidation

/-- decimal ASCII rendering (`operator<<` on an unsigned integer); the fuel
64 covers any `uint64_t`. -/
def natDecGo : ℕ → ℕ → Buffer
  | 0, _ => Buffer.empty
  | fuel + 1, n =>
    if n = 0 then Buffer.empty else natDecGo fuel (n / 10) ++ Buffer.byte (48 + n % 10)

def natDec (n : ℕ) : Buffer := if n = 0 then Buffer.byte 48 else natDecGo 64 n

/-- `rxrevoltchain::core::Transaction` (the fields `getTxHash` reads). -/
structure Transaction where
  fromAddress : Buffer
  toAddress : Buffer
  value : ℕ
  cids : List Buffer
  signature : Buffer
  deriving DecidableEq, Repr

/-- `Transaction::getTxHash`: SHA-256 of `from ++ to ++ decimal(value) ++`
the concatenated CIDs (the signature is not hashed). -/
def getTxHash (tx : Transaction) : Buffer :=
  sha256 ((tx.fromAddress ++ tx.toAddress ++ natDec tx.value) ++
    tx.cids.foldl (fun acc c => acc ++ c) Buffer.empty)

/-- `rxrevoltchain::core::PopProof`. -/
structure PopProof where
  nodePublicKey : Buffer
  cids : List Buffer
  merkleRootChunks : Buffer
  signature : Buffer
  deriving DecidableEq, Repr

/-- `rxrevoltchain::core::BlockHeader`. -/
structure BlockHeader where
  prevBlockHash : Buffer
  blockHeight : ℕ
  timestamp : ℕ
  merkleRootTx : Buffer
  merkleRootPoP : Buffer
  version : ℕ
  blockChallenge : Buffer
  deriving DecidableEq, Repr

/-- `rxrevoltchain::core::Block`. -/
structure Block where
  header : BlockHeader
  transactions : List Transaction
  popProofs : List PopProof
  deriving DecidableEq, Repr

/-- `Block::verifyPopChallenge`: the comment in `block.hpp` says "check that
the blockChallenge is included in each PoP's signature (not implemented)";
the method only logs and returns true. -/
def verifyPopChallenge (_blk : Block) : Bool := true

/-- `block_validation::verifyPopProof`: only non-emptiness of the four
fields. -/
def verifyPopProof (p : PopProof) : Bool :=
  if p.nodePublicKey.size = 0 then false
  else if p.merkleRootChunks.size = 0 then false
  else if p.signature.size = 0 then false
  else if p.cids.isEmpty then false
  else true

/-- iterated pairwise combination down to a single layer (the
`while (layer.size() > 1)` loops of `computeTxMerkleRoot` /
`computePopMerkleRoot`; the combination rule is the same as
`MerkleProof.parentLevel`). -/
def reduceLayer : ℕ → List Buffer → List Buffer
  | 0, l => l
  | fuel + 1, l => if l.length ≤ 1 then l else reduceLayer fuel (MerkleProof.parentLevel l)

/-- the ASCII bytes of `"EMPTY_TX_ROOT"`. -/
def emptyTxRoot : Buffer := Buffer.ofList [69, 77, 80, 84, 89, 95, 84, 88, 95, 82, 79, 79, 84]

/-- the ASCII bytes of `"EMPTY_POP_ROOT"`. -/
def emptyPopRoot : Buffer :=
  Buffer.ofList [69, 77, 80, 84, 89, 95, 80, 79, 80, 95, 82, 79, 79, 84]

/-- `block_validation::computeTxMerkleRoot`: hash each transaction's hash
string, combine pairwise (odd leftover carried) down to one value. -/
def computeTxMerkleRoot (txs : List Transaction) : Buffer :=
  if txs.isEmpty then emptyTxRoot
  else (reduceLayer txs.length (txs.map (fun tx => sha256 (getTxHash tx)))).headD Buffer.empty

/-- `block_validation::computePopMerkleRoot`: hash each proof's concatenated
fields, combine pairwise down to one value. -/
def computePopMerkleRoot (pps : List PopProof) : Buffer :=
  if pps.isEmpty then emptyPopRoot
  else
    (reduceLayer pps.length (pps.map (fun p =>
      sha256 ((p.nodePublicKey ++ p.merkleRootChunks ++ p.signature) ++
        p.cids.foldl (fun acc c => acc ++ c) Buffer.empty)))).headD Buffer.empty

/-- `block_validation::checkBlockRules` (`now` is the `std::time(nullptr)`
observation): height/prev-hash check, a 2-hour future-timestamp bound, the
two optional merkle-root recomputations, and `verifyPopProof` for every
carried proof. -/
def checkBlockRules (blk : Block) (now : ℕ) : Bool :=
  if 0 < blk.header.blockHeight ∧ blk.header.prevBlockHash.size = 0 then false
  else if now + 7200 < blk.header.timestamp then false
  else if blk.header.merkleRootTx.size ≠ 0 ∧
      computeTxMerkleRoot blk.transactions ≠ blk.header.merkleRootTx then false
  else if blk.header.merkleRootPoP.size ≠ 0 ∧
      computePopMerkleRoot blk.popProofs ≠ blk.header.merkleRootPoP then false
  else blk.popProofs.all verifyPopProof

end BlockValidation

/-! ## Concrete scenario data -/

/-- the ASCII bytes of `"node1"`. -/
def node1 : Buffer := Buffer.ofList [110, 111, 100, 101, 49]

/-- a 10,000-byte file (all zero bytes; the claims constrain only the size). -/
def file10000 : Buffer := Buffer.zeros 10000

/-- an 8,193-byte file: the smallest shape with three chunks
(4096, 4096, 1). -/
def file8193 : Buffer := Buffer.zeros 8193

/-- the honest proof blob for `file10000` over offsets `[0, 2]`. -/
def c2proof : Buffer := MerkleProof.GenerateProof file10000 [0, 2]

/-- the consensus state after a challenge over offsets `[0, 2]` of
`file10000` has been set up (expected root = root of the locally generated
reference proof) and node `"node1"`'s honest response collected. -/
def c2state : PoPConsensus.State :=
  { PoPConsensus.initState with
    lastCID := Buffer.ofList [99, 105, 100, 49, 50, 51]
    offsets := [0, 2]
    currentChallengeRoot := PoPConsensus.extractRootFromProof c2proof
    challengeNodeResponses := [(node1, c2proof)] }

/-- the scheduler state of the distribution scenario: fresh scheduler, base
daily reward 100, then `RecordPassingNodes(["A"])` and
`RecordPassingNodes(["A","B"])`. -/
def c8state : RewardScheduler.State :=
  RewardScheduler.RecordPassingNodes
    (RewardScheduler.RecordPassingNodes
      (RewardScheduler.SetBaseDailyReward RewardScheduler.initState 100)
      [Buffer.ofList [65]])
    [Buffer.ofList [65], Buffer.ofList [66]]

/-- 49 distinct single-byte node identifiers. -/
def c9nodes : List Buffer := (List.range 49).map (fun i => Buffer.ofList [i])

/-- base daily reward 49, one round passed by all 49 nodes: pool 49, every
streak 1, total streak 49. -/
def c9state : RewardScheduler.State :=
  RewardScheduler.RecordPassingNodes
    (RewardScheduler.SetBaseDailyReward RewardScheduler.initState 49) c9nodes

/-- a 4-byte big-endian field (the unit written by `writeUint32`). -/
def u4 (v : ℕ) : Buffer := ⟨4, v % 4294967296⟩

/-- a buffer that well-formedly encodes `chunkSize`, `totalChunks`,
`numOffsets = 0` (no offset blocks at all) and a trailing root field: exactly
what `writeUint32` would lay out. -/
def forgedBlob (cs tc : ℕ) (root : Buffer) : Buffer :=
  MerkleProof.writeUint32 (MerkleProof.writeUint32 (MerkleProof.writeUint32
    (MerkleProof.writeUint32 Buffer.empty cs) tc) 0) root.size ++ root

/-- concrete forged-response scenario for the C3 witness. -/
def c3root : Buffer := Buffer.ofList [97, 98]

def c3state : PoPConsensus.State :=
  { PoPConsensus.initState with
    currentChallengeRoot := c3root
    challengeNodeResponses := [(node1, forgedBlob 4096 3 c3root)] }

/-- a structurally well-formed block carrying no PopProofs at all. -/
def c5block : BlockValidation.Block :=
  { header :=
      { prevBlockHash := Buffer.empty
        blockHeight := 0
        timestamp := 0
        merkleRootTx := Buffer.empty
        merkleRootPoP := Buffer.empty
        version := 1
        blockChallenge := Buffer.ofList [99] }
    transactions := []
    popProofs := [] }

/-- a block carrying one PopProof whose signature (`"d"`) does not contain
the block challenge (`"c"`) as a substring. -/
def c5blockP : BlockValidation.Block :=
  { c5block with
    popProofs := [{ nodePublicKey := Buffer.ofList [107]
                    cids := [Buffer.ofList [113]]
                    merkleRootChunks := Buffer.ofList [114]
                    signature := Buffer.ofList [100] }] }

/-- the honest two-offset proof blob over the 8193-byte file.  Offset 0's
embedded chunk data occupies bytes `[20, 4116)` of the blob (after the three
4-byte header fields, the offset index and the chunk-data length). -/
def c7blob : Buffer := MerkleProof.GenerateProof file8193 [0, 2]

/-- `c7blob` with the first byte of offset 0's embedded chunk data changed
from 0 to 1 (a single-byte flip). -/
def c7tampered : Buffer := c7blob.setByte 20 1

/-- the adjudication of the `i`-th decoded offset claim of a proof blob:
`checkOffset` of that claim against the blob's stored root (`none` when the
blob does not decode or carries no such claim). -/
def claimOutcome (b : Buffer) (i : ℕ) : Option Bool :=
  (MerkleProof.parseProof b).bind
    (fun pq => (pq.1.ops[i]?).map (MerkleProof.checkOffset pq.1.root))

/-! ## Buffer slice algebra

Supporting lemmas about the byte-buffer encoding, used by the universal
theorems about the proof codec (C3, C6, C7). -/

namespace Buffer

theorem size_append (a b : Buffer) : (a ++ b).size = a.size + b.size := rfl

theorem data_append (a b : Buffer) : (a ++ b).data = a.data * 256 ^ b.size + b.data := rfl

theorem WF.append {a b : Buffer} (ha : a.WF) (hb : b.WF) : (a ++ b).WF := by
  unfold WF at *
  calc a.data * 256 ^ b.size + b.data
      < a.data * 256 ^ b.size + 256 ^ b.size := by omega
    _ = (a.data + 1) * 256 ^ b.size := by ring
    _ ≤ 256 ^ a.size * 256 ^ b.size := by
        have : a.data + 1 ≤ 256 ^ a.size := ha
        exact Nat.mul_le_mul_right _ this
    _ = 256 ^ (a ++ b).size := by rw [size_append, pow_add]

theorem append_assoc (a b c : Buffer) : (a ++ b) ++ c = a ++ (b ++ c) := by
  show Buffer.mk _ _ = Buffer.mk _ _
  have hs : (a.size + b.size) + c.size = a.size + (b.size + c.size) := by omega
  have hd : (a.data * 256 ^ b.size + b.data) * 256 ^ c.size + c.data =
      a.data * 256 ^ (b.size + c.size) + (b.data * 256 ^ c.size + c.data) := by
    rw [pow_add]; ring
  simpa [append, HAppend.hAppend, size_append] using And.intro hs hd

theorem empty_append (b : Buffer) : Buffer.empty ++ b = b := by
  show Buffer.mk _ _ = _
  simp [append, HAppend.hAppend, empty]

/-- the slice in closed form: for `pos + n ≤ size`, the `n` bytes from
position `pos` have value `data / 256 ^ (size - pos - n) % 256 ^ n`. -/
theorem slice_eq {b : Buffer} {pos n : ℕ} (h : pos + n ≤ b.size) :
    b.slice pos n = ⟨n, b.data / 256 ^ (b.size - pos - n) % 256 ^ n⟩ := by
  unfold slice drop
  rw [if_pos (show pos ≤ b.size by omega)]
  unfold take
  rw [if_pos (show n ≤ (Buffer.mk (b.size - pos) (b.data % 256 ^ (b.size - pos))).size
    by show n ≤ b.size - pos; omega)]
  show Buffer.mk n _ = Buffer.mk n _
  congr 1
  show b.data % 256 ^ (b.size - pos) / 256 ^ (b.size - pos - n) = _
  have h1 : b.size - pos = (b.size - pos - n) + n := by omega
  rw [h1, pow_add]
  have h2 : b.size - pos - n + n - n = b.size - pos - n := by omega
  rw [h2, Nat.mod_mul_right_div_self]

/-- `u32at` is the value of the 4-byte slice. -/
theorem u32at_eq_slice {b : Buffer} {pos : ℕ} (h : pos + 4 ≤ b.size) :
    b.u32at pos = (b.slice pos 4).data := by
  rw [slice_eq h]
  rfl

theorem size_take_of_le {b : Buffer} {n : ℕ} (h : n ≤ b.size) : (b.take n).size = n := by
  unfold take
  rw [if_pos h]

/-- slicing inside a prefix: a slice that fits within the first `l` bytes is
unchanged by truncation to `l` bytes. -/
theorem data_take_of_le {b : Buffer} {n : ℕ} (h : n ≤ b.size) :
    (b.take n).data = b.data / 256 ^ (b.size - n) := by
  unfold take
  rw [if_pos h]

theorem slice_take {b : Buffer} {l pos n : ℕ} (hl : l ≤ b.size) (h : pos + n ≤ l) :
    (b.take l).slice pos n = b.slice pos n := by
  rw [slice_eq (by rw [size_take_of_le hl]; omega), slice_eq (by omega),
    size_take_of_le hl, data_take_of_le hl]
  rw [Nat.div_div_eq_div_mul, ← pow_add]
  have he : b.size - l + (l - pos - n) = b.size - pos - n := by omega
  rw [he]

theorem WF.take {b : Buffer} (hb : b.WF) (n : ℕ) : (b.take n).WF := by
  unfold Buffer.take WF at *
  split
  case isTrue h =>
    rw [Nat.div_lt_iff_lt_mul (Nat.pos_pow_of_pos _ (by norm_num)), ← pow_add]
    have he : n + (b.size - n) = b.size := by omega
    rw [he]
    exact hb
  case isFalse h => exact hb

theorem WF.drop {b : Buffer} (n : ℕ) : (b.drop n).WF := by
  unfold Buffer.drop WF
  split
  · exact Nat.mod_lt _ (Nat.pos_pow_of_pos _ (by norm_num))
  · show (0 : ℕ) < 256 ^ 0
    norm_num

theorem WF.slice (b : Buffer) (pos n : ℕ) : ((b.drop pos).take n).WF :=
  WF.take (WF.drop pos) n

theorem WF.empty : (Buffer.empty).WF := by
  show (0 : ℕ) < 256 ^ 0
  norm_num

/-- the full slice of a well-formed buffer is the buffer. -/
theorem slice_full {a : Buffer} (ha : a.WF) : a.slice 0 a.size = a := by
  rw [slice_eq (by omega)]
  show Buffer.mk _ _ = _
  have h0 : a.size - 0 - a.size = 0 := by omega
  rw [h0, pow_zero, Nat.div_one, Nat.mod_eq_of_lt ha]

/-- a slice inside the left part of an append. -/
theorem slice_append_left {a b : Buffer} {pos n : ℕ} (hb : b.WF) (h : pos + n ≤ a.size) :
    (a ++ b).slice pos n = a.slice pos n := by
  rw [slice_eq (by rw [size_append]; omega), slice_eq h, size_append, data_append]
  congr 1
  have he : a.size + b.size - pos - n = b.size + (a.size - pos - n) := by omega
  rw [he, pow_add, ← Nat.div_div_eq_div_mul, mul_comm a.data,
    Nat.mul_add_div (Nat.pos_pow_of_pos _ (by norm_num)),
    Nat.div_eq_of_lt hb, Nat.add_zero]

/-- a slice inside the right part of an append. -/
theorem slice_append_right {a b : Buffer} {pos n : ℕ} (hpos : a.size ≤ pos)
    (h : pos + n ≤ a.size + b.size) :
    (a ++ b).slice pos n = b.slice (pos - a.size) n := by
  rw [slice_eq (by rw [size_append]; omega), slice_eq (by omega), size_append, data_append]
  congr 1
  have hk : b.size - (pos - a.size) - n = a.size + b.size - pos - n := by omega
  rw [hk]
  set k := a.size + b.size - pos - n with hkdef
  have hkb : k ≤ b.size := by omega
  have hkn : n ≤ b.size - k := by omega
  have hd : a.data * 256 ^ b.size = 256 ^ k * (a.data * 256 ^ (b.size - k)) := by
    rw [mul_comm (256 ^ k), mul_assoc, ← pow_add]
    congr 2
    omega
  rw [hd, Nat.mul_add_div (Nat.pos_pow_of_pos _ (by norm_num))]
  have hd2 : a.data * 256 ^ (b.size - k) = 256 ^ n * (a.data * 256 ^ (b.size - k - n)) := by
    rw [mul_comm (256 ^ n), mul_assoc, ← pow_add]
    congr 2
    omega
  rw [hd2, Nat.mul_add_mod]

end Buffer

/-! ## Parser reads in terms of slices -/

namespace MerkleProof

theorem readU32_of_le {b : Buffer} {pos : ℕ} (h : pos + 4 ≤ b.size) :
    readU32 b pos = some ((b.slice pos 4).data, pos + 4) := by
  unfold readU32
  rw [if_pos h, Buffer.u32at_eq_slice h]

theorem readBytes_of_le {b : Buffer} {pos n : ℕ} (h : pos + n ≤ b.size) :
    readBytes b pos n = some (b.slice pos n, pos + n) := by
  unfold readBytes
  rw [if_pos h]

theorem readU32_none {b : Buffer} {pos : ℕ} (h : b.size < pos + 4) :
    readU32 b pos = none := by
  unfold readU32
  rw [if_neg (by omega)]

theorem readBytes_none {b : Buffer} {pos n : ℕ} (h : b.size < pos + n) :
    readBytes b pos n = none := by
  unfold readBytes
  rw [if_neg (by omega)]

/-- a 32-bit read of a truncated buffer: the same value as on the full
buffer when the read fits the cut, failure otherwise. -/
theorem readU32_take {b : Buffer} {l : ℕ} (hl : l ≤ b.size) (pos : ℕ) :
    readU32 (b.take l) pos =
      if pos + 4 ≤ l then some ((b.slice pos 4).data, pos + 4) else none := by
  by_cases h : pos + 4 ≤ l
  · rw [if_pos h, readU32_of_le (by rw [Buffer.size_take_of_le hl]; omega),
      Buffer.slice_take hl h]
  · rw [if_neg h, readU32_none (by rw [Buffer.size_take_of_le hl]; omega)]

theorem readBytes_take {b : Buffer} {l : ℕ} (hl : l ≤ b.size) (pos n : ℕ) :
    readBytes (b.take l) pos n =
      if pos + n ≤ l then some (b.slice pos n, pos + n) else none := by
  by_cases h : pos + n ≤ l
  · rw [if_pos h, readBytes_of_le (by rw [Buffer.size_take_of_le hl]; omega),
      Buffer.slice_take hl h]
  · rw [if_neg h, readBytes_none (by rw [Buffer.size_take_of_le hl]; omega)]

/-- a successful sibling-path parse moves forward and stays inside the
buffer, and parsing a truncation of the buffer gives the identical result
iff the parse's final position survives the cut (and fails otherwise). -/
theorem parsePath_take {b : Buffer} : ∀ (n pos : ℕ) (path : List Buffer) (q : ℕ),
    parsePath b pos n = some (path, q) → pos ≤ b.size →
    pos ≤ q ∧ q ≤ b.size ∧
      ∀ l : ℕ, l ≤ b.size → pos ≤ l →
        parsePath (b.take l) pos n = if q ≤ l then some (path, q) else none
  | 0, pos, path, q, h, hpos => by
    unfold parsePath at h
    simp only [Option.some.injEq, Prod.mk.injEq] at h
    obtain ⟨hpath, hq⟩ := h
    subst hpath
    subst hq
    refine ⟨Nat.le_refl pos, hpos, fun l hl hpl => ?_⟩
    rw [if_pos hpl]
    rfl
  | n + 1, pos, path, q, h, hpos => by
    unfold parsePath at h
    by_cases h4 : pos + 4 ≤ b.size
    · simp only [readU32_of_le h4] at h
      by_cases hv : pos + 4 + (b.slice pos 4).data ≤ b.size
      · simp only [readBytes_of_le hv] at h
        cases hrec : parsePath b (pos + 4 + (b.slice pos 4).data) n with
        | none => simp only [hrec] at h; cases h
        | some rp =>
          obtain ⟨rest, p5⟩ := rp
          simp only [hrec, Option.some.injEq, Prod.mk.injEq] at h
          obtain ⟨hpath, hq⟩ := h
          subst hpath
          subst hq
          obtain ⟨hq1, hq2, htr⟩ :=
            parsePath_take n (pos + 4 + (b.slice pos 4).data) rest p5 hrec (by omega)
          refine ⟨by omega, hq2, fun l hl hpl => ?_⟩
          unfold parsePath
          rw [readU32_take hl pos]
          by_cases hl4 : pos + 4 ≤ l
          · simp only [if_pos hl4, readBytes_take hl]
            by_cases hlv : pos + 4 + (b.slice pos 4).data ≤ l
            · simp only [if_pos hlv, htr l hl (by omega)]
              by_cases hql : p5 ≤ l
              · simp only [if_pos hql]
              · simp only [if_neg hql]
            · simp only [if_neg hlv, if_neg (show ¬ p5 ≤ l by omega)]
          · simp only [if_neg hl4, if_neg (show ¬ p5 ≤ l by omega)]
      · rw [readBytes_none (by omega)] at h
        simp at h
    · rw [readU32_none (by omega)] at h
      simp at h

/-- the analogue of `parsePath_take` for the offset-block loop. -/
theorem parseOffsets_take {b : Buffer} : ∀ (n pos : ℕ) (ops : List OffsetProof) (q : ℕ),
    parseOffsets b pos n = some (ops, q) → pos ≤ b.size →
    pos ≤ q ∧ q ≤ b.size ∧
      ∀ l : ℕ, l ≤ b.size → pos ≤ l →
        parseOffsets (b.take l) pos n = if q ≤ l then some (ops, q) else none
  | 0, pos, ops, q, h, hpos => by
    unfold parseOffsets at h
    simp only [Option.some.injEq, Prod.mk.injEq] at h
    obtain ⟨hops, hq⟩ := h
    subst hops
    subst hq
    refine ⟨Nat.le_refl pos, hpos, fun l hl hpl => ?_⟩
    rw [if_pos hpl]
    rfl
  | n + 1, pos, ops, q, h, hpos => by
    unfold parseOffsets at h
    by_cases h1 : pos + 4 ≤ b.size
    · simp only [readU32_of_le h1] at h
      by_cases h2 : pos + 4 + 4 ≤ b.size
      · simp only [readU32_of_le h2] at h
        by_cases h3 : pos + 4 + 4 + (b.slice (pos + 4) 4).data ≤ b.size
        · simp only [readBytes_of_le h3] at h
          by_cases h4 : pos + 4 + 4 + (b.slice (pos + 4) 4).data + 4 ≤ b.size
          · simp only [readU32_of_le h4] at h
            cases hpp : parsePath b (pos + 4 + 4 + (b.slice (pos + 4) 4).data + 4)
                (b.slice (pos + 4 + 4 + (b.slice (pos + 4) 4).data) 4).data with
            | none => simp only [hpp] at h; cases h
            | some pr =>
              obtain ⟨path, p5⟩ := pr
              simp only [hpp] at h
              cases hro : parseOffsets b p5 n with
              | none => simp only [hro] at h; cases h
              | some rr =>
                obtain ⟨rest, p6⟩ := rr
                simp only [hro, Option.some.injEq, Prod.mk.injEq] at h
                obtain ⟨hops, hq⟩ := h
                subst hops
                subst hq
                obtain ⟨hp1, hp2, hptr⟩ := parsePath_take _ _ path p5 hpp (by omega)
                obtain ⟨ho1, ho2, hotr⟩ := parseOffsets_take n p5 rest p6 hro (by omega)
                refine ⟨by omega, ho2, fun l hl hpl => ?_⟩
                unfold parseOffsets
                rw [readU32_take hl pos]
                by_cases hl1 : pos + 4 ≤ l
                · simp only [if_pos hl1, readU32_take hl]
                  by_cases hl2 : pos + 4 + 4 ≤ l
                  · simp only [if_pos hl2, readBytes_take hl]
                    by_cases hl3 : pos + 4 + 4 + (b.slice (pos + 4) 4).data ≤ l
                    · simp only [if_pos hl3, readU32_take hl]
                      by_cases hl4 : pos + 4 + 4 + (b.slice (pos + 4) 4).data + 4 ≤ l
                      · simp only [if_pos hl4, hptr l hl (by omega)]
                        by_cases hl5 : p5 ≤ l
                        · simp only [if_pos hl5, hotr l hl (by omega)]
                          by_cases hl6 : p6 ≤ l
                          · simp only [if_pos hl6]
                          · simp only [if_neg hl6]
                        · simp only [if_neg hl5, if_neg (show ¬ p6 ≤ l by omega)]
                      · simp only [if_neg hl4, if_neg (show ¬ p6 ≤ l by omega)]
                    · simp only [if_neg hl3, if_neg (show ¬ p6 ≤ l by omega)]
                  · simp only [if_neg hl2, if_neg (show ¬ p6 ≤ l by omega)]
                · simp only [if_neg hl1, if_neg (show ¬ p6 ≤ l by omega)]
          · rw [readU32_none (by omega)] at h
            simp at h
        · rw [readBytes_none (by omega)] at h
          simp at h
      · rw [readU32_none (by omega)] at h
        simp at h
    · rw [readU32_none (by omega)] at h
      simp at h

/-- a successful `parseProof` ends inside the buffer, and parsing a
truncation of the blob yields the identical decoded proof iff the original
final position survives the cut — and `none` (the C++ `return false`)
otherwise. -/
theorem parseProof_take {b : Buffer} {pp : ParsedProof} {q : ℕ}
    (h : parseProof b = some (pp, q)) :
    q ≤ b.size ∧ ∀ l : ℕ, l ≤ b.size →
      parseProof (b.take l) = if q ≤ l then some (pp, q) else none := by
  unfold parseProof at h
  by_cases h1 : 0 + 4 ≤ b.size
  · simp only [readU32_of_le h1] at h
    by_cases h2 : 0 + 4 + 4 ≤ b.size
    · simp only [readU32_of_le h2] at h
      by_cases h3 : 0 + 4 + 4 + 4 ≤ b.size
      · simp only [readU32_of_le h3] at h
        cases hpo : parseOffsets b (0 + 4 + 4 + 4) (b.slice (0 + 4 + 4) 4).data with
        | none => simp only [hpo] at h; cases h
        | some orr =>
          obtain ⟨ops, p4⟩ := orr
          simp only [hpo] at h
          by_cases h4 : p4 + 4 ≤ b.size
          · simp only [readU32_of_le h4] at h
            by_cases h5 : p4 + 4 + (b.slice p4 4).data ≤ b.size
            · simp only [readBytes_of_le h5, Option.some.injEq, Prod.mk.injEq] at h
              obtain ⟨hstruct, hq⟩ := h
              subst hstruct
              subst hq
              obtain ⟨ho1, ho2, hotr⟩ := parseOffsets_take _ _ ops p4 hpo (by omega)
              refine ⟨by omega, fun l hl => ?_⟩
              unfold parseProof
              rw [readU32_take hl 0]
              by_cases hl1 : 0 + 4 ≤ l
              · simp only [if_pos hl1, readU32_take hl]
                by_cases hl2 : 0 + 4 + 4 ≤ l
                · simp only [if_pos hl2]
                  by_cases hl3 : 0 + 4 + 4 + 4 ≤ l
                  · simp only [if_pos hl3, hotr l hl (by omega)]
                    by_cases hl4 : p4 ≤ l
                    · simp only [if_pos hl4, readU32_take hl]
                      by_cases hl5 : p4 + 4 ≤ l
                      · simp only [if_pos hl5, readBytes_take hl]
                        by_cases hl6 : p4 + 4 + (b.slice p4 4).data ≤ l
                        · simp only [if_pos hl6]
                        · simp only [if_neg hl6]
                      · simp only [if_neg hl5,
                          if_neg (show ¬ p4 + 4 + (b.slice p4 4).data ≤ l by omega)]
                    · simp only [if_neg hl4,
                        if_neg (show ¬ p4 + 4 + (b.slice p4 4).data ≤ l by omega)]
                  · simp only [if_neg hl3,
                      if_neg (show ¬ p4 + 4 + (b.slice p4 4).data ≤ l by omega)]
                · simp only [if_neg hl2,
                    if_neg (show ¬ p4 + 4 + (b.slice p4 4).data ≤ l by omega)]
              · simp only [if_neg hl1,
                  if_neg (show ¬ p4 + 4 + (b.slice p4 4).data ≤ l by omega)]
            · rw [readBytes_none (by omega)] at h
              simp at h
          · rw [readU32_none (by omega)] at h
            simp at h
      · rw [readU32_none (by omega)] at h
        simp at h
    · rw [readU32_none (by omega)] at h
      simp at h
  · rw [readU32_none (by omega)] at h
    simp at h

end MerkleProof

/-! ## C10 -/

namespace CidRandomness

/-- moving the `j`-th element to the front while writing `a` in its place is a
permutation of putting `a` at the front. -/
theorem cons_set_perm : ∀ (xs : List α) (j : ℕ) (a b : α), xs[j]? = some b →
    (b :: xs.set j a).Perm (a :: xs)
  | [], j, _, _, h => by simp at h
  | x :: xs, 0, a, b, h => by
    simp only [List.getElem?_cons_zero, Option.some.injEq] at h
    subst h
    exact List.Perm.swap a x xs
  | x :: xs, j + 1, a, b, h => by
    simp only [List.getElem?_cons_succ] at h
    exact (List.Perm.swap x b (xs.set j a)).trans
      (((cons_set_perm xs j a b h).cons x).trans (List.Perm.swap a x xs))

/-- exchanging the values at two in-range positions permutes the list. -/
theorem set_set_perm : ∀ (l : List α) (i j : ℕ) (a b : α), l[i]? = some a →
    l[j]? = some b → ((l.set i b).set j a).Perm l
  | [], i, _, _, _, h, _ => by simp at h
  | x :: xs, 0, 0, a, b, ha, hb => by
    simp only [List.getElem?_cons_zero, Option.some.injEq] at ha
    subst ha
    exact List.Perm.refl _
  | x :: xs, 0, j + 1, a, b, ha, hb => by
    simp only [List.getElem?_cons_zero, Option.some.injEq] at ha
    simp only [List.getElem?_cons_succ] at hb
    subst ha
    exact cons_set_perm xs j _ _ hb
  | x :: xs, i + 1, 0, a, b, ha, hb => by
    simp only [List.getElem?_cons_zero, Option.some.injEq] at hb
    simp only [List.getElem?_cons_succ] at ha
    subst hb
    exact cons_set_perm xs i _ _ ha
  | x :: xs, i + 1, j + 1, a, b, ha, hb => by
    simp only [List.getElem?_cons_succ] at ha hb
    exact (set_set_perm xs i j a b ha hb).cons x

theorem swapAt_perm (l : List α) (i j : ℕ) : (swapAt l i j).Perm l := by
  unfold swapAt
  match hi : l[i]?, hj : l[j]? with
  | none, _ => exact List.Perm.refl l
  | some a, none => exact List.Perm.refl l
  | some a, some b => exact set_set_perm l i j a b hi hj

theorem shuffleGo_perm (draws : ℕ → ℕ) : ∀ (i : ℕ) (l : List α),
    (shuffleGo draws i l).Perm l
  | 0, l => List.Perm.refl l
  | i + 1, l => by
    unfold shuffleGo
    refine (shuffleGo_perm draws i _).trans ?_
    split
    · exact swapAt_perm l (i + 1) (draws (i + 1))
    · exact List.Perm.refl l

end CidRandomness

/-! ## Shared helper lemmas about the codec -/

/-- every buffer produced by `GenerateProof` carries at least the 4-byte root
length field, so `IssueChallenges`'s `proof.empty()` bail-out never fires. -/
theorem GenerateProof_size_pos (fileData : Buffer) (offsets : List ℕ) :
    0 < (MerkleProof.GenerateProof fileData offsets).size := by
  show 0 < (MerkleProof.writeUint32 _ _ ++ _).size
  simp [MerkleProof.writeUint32, Buffer.append, HAppend.hAppend]

theorem u4_WF (v : ℕ) : (u4 v).WF :=
  show v % 4294967296 < 256 ^ 4 from Nat.mod_lt _ (by norm_num)

theorem u4_size (v : ℕ) : (u4 v).size = 4 := rfl

/-- the leading 4-byte slice of `u4 v ++ r` is `u4 v`. -/
theorem slice_u4_left (v : ℕ) (r : Buffer) (hr : r.WF) :
    (u4 v ++ r).slice 0 4 = u4 v :=
  (Buffer.slice_append_left hr (Nat.le_refl 4)).trans (Buffer.slice_full (u4_WF v))

/-- a slice past the leading 4-byte field of `u4 v ++ r` reads from `r`. -/
theorem slice_u4_right (v pos n : ℕ) (r : Buffer) (h4 : 4 ≤ pos)
    (h : pos + n ≤ 4 + r.size) :
    (u4 v ++ r).slice pos n = r.slice (pos - 4) n :=
  Buffer.slice_append_right h4 h

theorem forgedBlob_eq (cs tc : ℕ) (root : Buffer) :
    forgedBlob cs tc root = u4 cs ++ (u4 tc ++ (u4 0 ++ (u4 root.size ++ root))) := by
  unfold forgedBlob MerkleProof.writeUint32 u4
  rw [Buffer.empty_append, Buffer.append_assoc, Buffer.append_assoc, Buffer.append_assoc]

theorem forgedBlob_size (cs tc : ℕ) (root : Buffer) :
    (forgedBlob cs tc root).size = 16 + root.size := by
  rw [forgedBlob_eq]
  show 4 + (4 + (4 + (4 + root.size))) = 16 + root.size
  omega

/-- the four header fields and the root of the forged blob, as slices. -/
theorem forgedBlob_slices (cs tc : ℕ) (root : Buffer) (hwf : root.WF) :
    (forgedBlob cs tc root).slice 0 4 = u4 cs ∧
      (forgedBlob cs tc root).slice 4 4 = u4 tc ∧
      (forgedBlob cs tc root).slice 8 4 = u4 0 ∧
      (forgedBlob cs tc root).slice 12 4 = u4 root.size ∧
      (forgedBlob cs tc root).slice 16 root.size = root := by
  have w3 : (u4 root.size ++ root).WF := (u4_WF _).append hwf
  have w2 : (u4 0 ++ (u4 root.size ++ root)).WF := (u4_WF _).append w3
  have w1 : (u4 tc ++ (u4 0 ++ (u4 root.size ++ root))).WF := (u4_WF _).append w2
  have s3 : (u4 root.size ++ root).size = 4 + root.size := rfl
  have s2 : (u4 0 ++ (u4 root.size ++ root)).size = 8 + root.size := by
    rw [Buffer.size_append, u4_size, s3]; omega
  have s1 : (u4 tc ++ (u4 0 ++ (u4 root.size ++ root))).size = 12 + root.size := by
    rw [Buffer.size_append, u4_size, s2]; omega
  rw [forgedBlob_eq]
  refine ⟨?_, ?_, ?_, ?_, ?_⟩
  · exact slice_u4_left cs _ w1
  · rw [slice_u4_right cs 4 4 (u4 tc ++ (u4 0 ++ (u4 root.size ++ root)))
      (by omega) (by rw [s1]; omega)]
    exact slice_u4_left tc _ w2
  · rw [slice_u4_right cs 8 4 (u4 tc ++ (u4 0 ++ (u4 root.size ++ root)))
      (by omega) (by rw [s1]; omega)]
    show (u4 tc ++ (u4 0 ++ (u4 root.size ++ root))).slice 4 4 = u4 0
    rw [slice_u4_right tc 4 4 (u4 0 ++ (u4 root.size ++ root))
      (by omega) (by rw [s2]; omega)]
    exact slice_u4_left 0 _ w3
  · rw [slice_u4_right cs 12 4 (u4 tc ++ (u4 0 ++ (u4 root.size ++ root)))
      (by omega) (by rw [s1]; omega)]
    show (u4 tc ++ (u4 0 ++ (u4 root.size ++ root))).slice 8 4 = u4 root.size
    rw [slice_u4_right tc 8 4 (u4 0 ++ (u4 root.size ++ root))
      (by omega) (by rw [s2]; omega)]
    show (u4 0 ++ (u4 root.size ++ root)).slice 4 4 = u4 root.size
    rw [slice_u4_right 0 4 4 (u4 root.size ++ root) (by omega) (by rw [s3]; omega)]
    exact slice_u4_left root.size root hwf
  · rw [slice_u4_right cs 16 root.size (u4 tc ++ (u4 0 ++ (u4 root.size ++ root)))
      (by omega) (by rw [s1]; omega)]
    show (u4 tc ++ (u4 0 ++ (u4 root.size ++ root))).slice 12 root.size = root
    rw [slice_u4_right tc 12 root.size (u4 0 ++ (u4 root.size ++ root))
      (by omega) (by rw [s2]; omega)]
    show (u4 0 ++ (u4 root.size ++ root)).slice 8 root.size = root
    rw [slice_u4_right 0 8 root.size (u4 root.size ++ root)
      (by omega) (by rw [s3]; omega)]
    show (u4 root.size ++ root).slice 4 root.size = root
    rw [slice_u4_right root.size 4 root.size root (by omega) (by omega)]
    show root.slice 0 root.size = root
    exact Buffer.slice_full hwf

/-- the forged blob parses to zero offset claims and the stored root. -/
theorem parseProof_forgedBlob (cs tc : ℕ) (root : Buffer) (hwf : root.WF)
    (hlt : root.size < 4294967296) :
    MerkleProof.parseProof (forgedBlob cs tc root) =
      some (⟨cs % 4294967296, tc % 4294967296, [], root⟩, 16 + root.size) := by
  obtain ⟨e0, e4, e8, e12, e16⟩ := forgedBlob_slices cs tc root hwf
  have hsz := forgedBlob_size cs tc root
  have r0 : MerkleProof.readU32 (forgedBlob cs tc root) 0 =
      some (cs % 4294967296, 4) := by
    rw [MerkleProof.readU32_of_le (by omega), e0]
    rfl
  have r4 : MerkleProof.readU32 (forgedBlob cs tc root) 4 =
      some (tc % 4294967296, 8) := by
    rw [MerkleProof.readU32_of_le (by omega), e4]
    rfl
  have r8 : MerkleProof.readU32 (forgedBlob cs tc root) 8 = some (0, 12) := by
    rw [MerkleProof.readU32_of_le (by omega), e8]
    show some (0 % 4294967296, 12) = _
    norm_num
  have r12 : MerkleProof.readU32 (forgedBlob cs tc root) 12 =
      some (root.size, 16) := by
    rw [MerkleProof.readU32_of_le (by omega), e12]
    show some (root.size % 4294967296, 16) = _
    rw [Nat.mod_eq_of_lt hlt]
  have r16 : MerkleProof.readBytes (forgedBlob cs tc root) 16 root.size =
      some (root, 16 + root.size) := by
    rw [MerkleProof.readBytes_of_le (by omega), e16]
  unfold MerkleProof.parseProof
  simp only [r0, r4, r8,
    show MerkleProof.parseOffsets (forgedBlob cs tc root) 12 0 = some ([], 12) from rfl,
    r12, r16]

/-- the skip-parser of `extractRootFromProof` also lands on the root. -/
theorem extractRoot_forgedBlob (cs tc : ℕ) (root : Buffer) (hwf : root.WF)
    (hlt : root.size < 4294967296) :
    PoPConsensus.extractRootFromProof (forgedBlob cs tc root) = root := by
  obtain ⟨e0, e4, e8, e12, e16⟩ := forgedBlob_slices cs tc root hwf
  have hsz := forgedBlob_size cs tc root
  have r0 : MerkleProof.readU32 (forgedBlob cs tc root) 0 =
      some (cs % 4294967296, 4) := by
    rw [MerkleProof.readU32_of_le (by omega), e0]
    rfl
  have r4 : MerkleProof.readU32 (forgedBlob cs tc root) 4 =
      some (tc % 4294967296, 8) := by
    rw [MerkleProof.readU32_of_le (by omega), e4]
    rfl
  have r8 : MerkleProof.readU32 (forgedBlob cs tc root) 8 = some (0, 12) := by
    rw [MerkleProof.readU32_of_le (by omega), e8]
    show some (0 % 4294967296, 12) = _
    norm_num
  have r12 : MerkleProof.readU32 (forgedBlob cs tc root) 12 =
      some (root.size, 16) := by
    rw [MerkleProof.readU32_of_le (by omega), e12]
    show some (root.size % 4294967296, 16) = _
    rw [Nat.mod_eq_of_lt hlt]
  unfold PoPConsensus.extractRootFromProof
  simp only [r0, r4, r8,
    show PoPConsensus.skipOffsets (forgedBlob cs tc root) 12 0 = some 12 from rfl, r12]
  rw [if_pos (by omega)]
  exact e16

/-- membership in the passing set built by `ValidateResponses`' fold. -/
theorem mem_passing_foldl (st : PoPConsensus.State) :
    ∀ (rs : List (Buffer × Buffer)) (acc : List Buffer) (x : Buffer),
      (x ∈ rs.foldl
        (fun acc nr => if PoPConsensus.responsePasses st nr.2 then acc ++ [nr.1] else acc)
        acc) ↔
        x ∈ acc ∨ ∃ d, (x, d) ∈ rs ∧ PoPConsensus.responsePasses st d = true
  | [], acc, x => by simp
  | (n, d) :: rest, acc, x => by
    show (x ∈ rest.foldl _ (if PoPConsensus.responsePasses st d then acc ++ [n] else acc)) ↔ _
    rw [mem_passing_foldl st rest]
    by_cases hp : PoPConsensus.responsePasses st d = true
    · rw [if_pos hp]
      simp only [List.mem_append, List.mem_cons, List.not_mem_nil, or_false,
        Prod.mk.injEq]
      constructor
      · rintro ((hx | rfl) | ⟨e, he, hpe⟩)
        · exact Or.inl hx
        · exact Or.inr ⟨d, Or.inl ⟨rfl, rfl⟩, hp⟩
        · exact Or.inr ⟨e, Or.inr he, hpe⟩
      · rintro (hx | ⟨e, ⟨rfl, rfl⟩ | he, hpe⟩)
        · exact Or.inl (Or.inl hx)
        · exact Or.inl (Or.inr rfl)
        · exact Or.inr ⟨e, he, hpe⟩
    · rw [if_neg hp]
      simp only [List.mem_cons, Prod.mk.injEq]
      constructor
      · rintro (hx | ⟨e, he, hpe⟩)
        · exact Or.inl hx
        · exact Or.inr ⟨e, Or.inr he, hpe⟩
      · rintro (hx | ⟨e, ⟨rfl, rfl⟩ | he, hpe⟩)
        · exact Or.inl hx
        · exact absurd hpe hp
        · exact Or.inr ⟨e, he, hpe⟩

/-! ## C1 -/

/-- **C1** (code bug).  The round-trip property fails: for the 8193-byte file
(chunks 4096, 4096, 1) and the valid offset list `[2]`, the honestly
generated proof does not verify.  `getMerklePath` records no sibling at a
level where the node is the odd trailing element, but `VerifyProof`'s climb
halves its index once per *recorded sibling* instead of once per level, so
the parity used for the level-1 combine of leaf 2 is wrong (`idx = 2`, even,
combines `current ++ sibling` where the tree combined `sibling ++ current`).
The repository's own test (`PoPConsensusTest.MerkleProofFlow`) asserts the
honest flow validates, but only exercises a single-chunk file where no level
is ever skipped. -/
theorem C1_roundtrip_fails_on_trailing_odd_chunk :
    2 < (MerkleProof.chunkFile file8193 4096).length ∧
      MerkleProof.VerifyProof (MerkleProof.GenerateProof file8193 [2]) = false := by
  decide!

/-! ## C2 -/

/-- **C2** (code bug).  The 10,000-byte file does chunk into sizes
4096, 4096, 1808, but validating the *honest* response for offsets `[0, 2]`
returns `false` with an empty passing set (the spec's scenario expects
`true` / `{"node1"}`): offset 2 is a trailing odd chunk, so its honest claim
fails verification exactly as in `C1_roundtrip_fails_on_trailing_odd_chunk`. -/
theorem C2_concrete_scenario_rejects_honest_response :
    (MerkleProof.chunkFile file10000 4096).map Buffer.size = [4096, 4096, 1808] ∧
      (PoPConsensus.ValidateResponses c2state).1 = false ∧
      (PoPConsensus.ValidateResponses c2state).2.passingNodes = [] := by
  decide!

/-! ## C8 -/

/-- **C8** (confirmed).  After the two recordings: streak A = 2, streak B = 1,
pool = 200; `DistributeRewards` returns true, credits A 133 and B 66, and
resets the pool to 0.  (The C++ computes the shares in `double`; at these
inputs the truncated doubles coincide with the exact floors 133 and 66.) -/
theorem C8_distribution_scenario :
    RewardScheduler.GetStreak c8state (Buffer.ofList [65]) = 2 ∧
      RewardScheduler.GetStreak c8state (Buffer.ofList [66]) = 1 ∧
      c8state.currentRewardPool = 200 ∧
      (RewardScheduler.DistributeRewards c8state).1 = true ∧
      RewardScheduler.GetBalance (RewardScheduler.DistributeRewards c8state).2
        (Buffer.ofList [65]) = 133 ∧
      RewardScheduler.GetBalance (RewardScheduler.DistributeRewards c8state).2
        (Buffer.ofList [66]) = 66 ∧
      (RewardScheduler.DistributeRewards c8state).2.currentRewardPool = 0 := by
  decide!

/-! ## C9 -/

/-- **C9** (code bug).  The spec says each reward is
`floor(currentPool * streak / totalStreak)` in exact integer arithmetic, which
here is `floor(49 * 1 / 49) = 1` for every node.  The code computes
`uint64(double(49) * (double(1) / double(49)))`: `1.0/49.0` rounds to slightly
below `1/49`, `49.0 * that` rounds to `0x1.fffffffffffffp-1 < 1`, and the
`uint64_t` cast truncates to 0 — every node is credited 0 and the whole pool
is silently lost. -/
theorem C9_double_rounding_loses_reward :
    c9state.currentRewardPool = 49 ∧
      RewardScheduler.GetStreak c9state (Buffer.ofList [0]) = 1 ∧
      (c9state.nodeStreaks.map (fun kv => kv.2)).sum = 49 ∧
      (RewardScheduler.DistributeRewards c9state).1 = true ∧
      RewardScheduler.GetBalance (RewardScheduler.DistributeRewards c9state).2
        (Buffer.ofList [0]) = 0 ∧
      49 * 1 / 49 = 1 := by
  decide!

/-! ## C4 -/

/-- **C4 counterexample.**  With the oracle that always samples 5000 (a legal
sample of `uniform_int_distribution(0, 9999)` for the 10,000-byte file) and
`count = 3`, the issued offsets are `[5000, 5000, 5000]`: they repeat, and
they are byte positions far beyond the chunk count 3 — not distinct chunk
indices below `totalChunks` as the claim states.  (`IssueChallenges` passes
the file *size*, not the chunk count, to `GenerateRandomOffsets`, which
samples with replacement.) -/
theorem C4_offsets_counterexample :
    ProofGenerator.GenerateRandomOffsets file10000.size 3 (fun _ => 5000) =
        [5000, 5000, 5000] ∧
      (MerkleProof.chunkFile file10000 4096).length = 3 ∧
      ¬ ((ProofGenerator.GenerateRandomOffsets file10000.size 3 (fun _ => 5000)).Nodup ∧
        ∀ o ∈ ProofGenerator.GenerateRandomOffsets file10000.size 3 (fun _ => 5000),
          o < (MerkleProof.chunkFile file10000 4096).length) := by
  decide

/-- **C4 amended.**  When a challenge is issued for a stat-able file with
nonzero size, the issuer samples `count ∈ [3, 6]` and then `count` byte
positions in `[0, fileSize)` — drawn independently (repetitions possible),
not chunk indices: exactly `count` offsets are produced, each below the file
size, and they are the engine's stored challenge offsets. -/
theorem C4_amended_offsets_are_byte_positions (st : PoPConsensus.State)
    (cid fileData : Buffer) (countDraw : ℕ) (draws : ℕ → ℕ)
    (hsize : fileData.size ≠ 0) (h3 : 3 ≤ countDraw) (h6 : countDraw ≤ 6)
    (hdraws : ∀ i, draws i < fileData.size) :
    (PoPConsensus.IssueChallenges st cid fileData countDraw draws).offsets =
        ProofGenerator.GenerateRandomOffsets fileData.size countDraw draws ∧
      (ProofGenerator.GenerateRandomOffsets fileData.size countDraw draws).length = countDraw ∧
      3 ≤ (ProofGenerator.GenerateRandomOffsets fileData.size countDraw draws).length ∧
      (ProofGenerator.GenerateRandomOffsets fileData.size countDraw draws).length ≤ 6 ∧
      ∀ o ∈ ProofGenerator.GenerateRandomOffsets fileData.size countDraw draws,
        o < fileData.size := by
  have hlen : (ProofGenerator.GenerateRandomOffsets fileData.size countDraw draws).length =
      countDraw := by
    unfold ProofGenerator.GenerateRandomOffsets
    rw [if_neg (by omega)]
    simp
  refine ⟨?_, hlen, by omega, by omega, ?_⟩
  · have hpos := GenerateProof_size_pos fileData
      (ProofGenerator.GenerateRandomOffsets fileData.size countDraw draws)
    unfold PoPConsensus.IssueChallenges
    rw [if_neg (by omega)]
  · intro o ho
    unfold ProofGenerator.GenerateRandomOffsets at ho
    rw [if_neg (by omega)] at ho
    obtain ⟨i, _, rfl⟩ := List.mem_map.mp ho
    exact hdraws i

/-- **C4 amended, witness**: the concrete instance of
`C4_amended_offsets_are_byte_positions` at the 10,000-byte file,
`countDraw = 3` and the constant oracle 5000. -/
theorem C4_amended_offsets_witness :
    (PoPConsensus.IssueChallenges PoPConsensus.initState Buffer.empty file10000 3
          (fun _ => 5000)).offsets =
        ProofGenerator.GenerateRandomOffsets file10000.size 3 (fun _ => 5000) ∧
      (ProofGenerator.GenerateRandomOffsets file10000.size 3 (fun _ => 5000)).length = 3 ∧
      3 ≤ (ProofGenerator.GenerateRandomOffsets file10000.size 3 (fun _ => 5000)).length ∧
      (ProofGenerator.GenerateRandomOffsets file10000.size 3 (fun _ => 5000)).length ≤ 6 ∧
      ∀ o ∈ ProofGenerator.GenerateRandomOffsets file10000.size 3 (fun _ => 5000),
        o < file10000.size :=
  C4_amended_offsets_are_byte_positions PoPConsensus.initState Buffer.empty file10000 3
    (fun _ => 5000) (by decide) (by decide) (by decide)
    (fun i => show (5000 : ℕ) < file10000.size by decide)

/-- **C10 counterexample.**  Requesting 5 random offsets from a 2-byte file
(population: 2 byte positions, or a single 4096-byte chunk) does not fail:
`GenerateRandomOffsets` has no error result at all and happily returns 5
repeated positions. -/
theorem C10_oversample_succeeds :
    ProofGenerator.GenerateRandomOffsets 2 5 (fun _ => 0) = [0, 0, 0, 0, 0] ∧
      (MerkleProof.chunkFile (Buffer.zeros 2) 4096).length = 1 := by
  decide

/-- **C10 amended.**  `selectRandomCIDs` fails with an explicit error exactly
when the requested count exceeds the population, and for a nonempty
population a request for exactly the population size returns a permutation of
it (every element exactly once); `GenerateRandomOffsets`, in contrast, never
signals an error and returns exactly `count` positions — with repetitions
possible — even when `count` exceeds the population. -/
theorem C10_amended_bounds :
    (∀ (cids : List Buffer) (count : ℕ) (draws : ℕ → ℕ),
        (cids.length < count →
          CidRandomness.selectRandomCIDs cids count draws =
            Except.error "selectRandomCIDs: count exceeds the size of allCIDs.") ∧
        (count ≤ cids.length → ∃ out,
          CidRandomness.selectRandomCIDs cids count draws = Except.ok out ∧
            out.length = count)) ∧
      (∀ (cids : List Buffer) (draws : ℕ → ℕ), cids ≠ [] → ∃ out,
        CidRandomness.selectRandomCIDs cids cids.length draws = Except.ok out ∧
          out.Perm cids) ∧
      (∀ (fileSize count : ℕ) (draws : ℕ → ℕ), fileSize ≠ 0 → count ≠ 0 →
        (ProofGenerator.GenerateRandomOffsets fileSize count draws).length = count) := by
  refine ⟨fun cids count draws => ⟨fun h => ?_, fun h => ?_⟩, fun cids draws _ => ?_, ?_⟩
  · unfold CidRandomness.selectRandomCIDs
    rw [if_pos h]
  · have he : CidRandomness.selectRandomCIDs cids count draws =
        Except.ok ((CidRandomness.shuffleGo draws (cids.length - 1) cids).take count) := by
      unfold CidRandomness.selectRandomCIDs
      rw [if_neg (by omega)]
    refine ⟨_, he, ?_⟩
    rw [List.length_take,
      (CidRandomness.shuffleGo_perm draws (cids.length - 1) cids).length_eq]
    omega
  · have he : CidRandomness.selectRandomCIDs cids cids.length draws =
        Except.ok ((CidRandomness.shuffleGo draws (cids.length - 1) cids).take
          cids.length) := by
      unfold CidRandomness.selectRandomCIDs
      rw [if_neg (by omega)]
    refine ⟨_, he, ?_⟩
    have hp := CidRandomness.shuffleGo_perm draws (cids.length - 1) cids
    rw [List.take_of_length_le (le_of_eq hp.length_eq)]
    exact hp
  · intro fileSize count draws h1 h2
    unfold ProofGenerator.GenerateRandomOffsets
    rw [if_neg (by omega)]
    simp

/-- **C10 amended, witness**: the population-size branch of
`C10_amended_bounds` at the two-element population `["a", "b"]` with the
constant oracle 0, together with the no-error branch at `fileSize = 2`,
`count = 5`. -/
theorem C10_amended_bounds_witness :
    (Buffer.ofList [97] :: [Buffer.ofList [98]] ≠ [] →
      ∃ out, CidRandomness.selectRandomCIDs [Buffer.ofList [97], Buffer.ofList [98]]
          [Buffer.ofList [97], Buffer.ofList [98]].length (fun _ => 0) = Except.ok out ∧
        out.Perm [Buffer.ofList [97], Buffer.ofList [98]]) ∧
      ((2 : ℕ) ≠ 0 → (5 : ℕ) ≠ 0 →
        (ProofGenerator.GenerateRandomOffsets 2 5 (fun _ => 0)).length = 5) :=
  ⟨C10_amended_bounds.2.1 [Buffer.ofList [97], Buffer.ofList [98]] (fun _ => 0),
   C10_amended_bounds.2.2 2 5 (fun _ => 0)⟩

/-! ## C3 -/

/-- **C3** (confirmed).  A buffer encoding `numOffsets = 0` plus the issuer's
expected root passes `VerifyProof` (no offset claim is ever checked; the
stored challenge offsets are not consulted), and `ValidateResponses` adds the
submitting node to the passing set although the response contains no chunk
data at all. -/
theorem C3_empty_offset_forgery (cs tc : ℕ) (root : Buffer) (st : PoPConsensus.State)
    (node : Buffer) (hwf : root.WF) (hne : root.size ≠ 0) (hlt : root.size < 4294967296)
    (hroot : st.currentChallengeRoot = root) (henc : st.useEncryption = false)
    (hmem : (node, forgedBlob cs tc root) ∈ st.challengeNodeResponses) :
    MerkleProof.VerifyProof (forgedBlob cs tc root) = true ∧
      node ∈ (PoPConsensus.ValidateResponses st).2.passingNodes := by
  have hvp : MerkleProof.VerifyProof (forgedBlob cs tc root) = true := by
    unfold MerkleProof.VerifyProof
    rw [parseProof_forgedBlob cs tc root hwf hlt]
    rfl
  refine ⟨hvp, ?_⟩
  have hpass : PoPConsensus.responsePasses st (forgedBlob cs tc root) = true := by
    unfold PoPConsensus.responsePasses
    rw [henc]
    show (MerkleProof.VerifyProof (forgedBlob cs tc root) &&
      (PoPConsensus.extractRootFromProof (forgedBlob cs tc root) ==
        st.currentChallengeRoot)) = true
    rw [Bool.and_eq_true]
    exact ⟨hvp, by rw [extractRoot_forgedBlob cs tc root hwf hlt, hroot]
                   exact beq_self_eq_true root⟩
  unfold PoPConsensus.ValidateResponses
  rw [if_neg (by rw [hroot]; omega)]
  show node ∈ List.foldl _ [] st.challengeNodeResponses
  rw [mem_passing_foldl st st.challengeNodeResponses [] node]
  exact Or.inr ⟨forgedBlob cs tc root, hmem, hpass⟩

/-- **C3, witness**: the forgery accepted at a concrete state. -/
theorem C3_empty_offset_forgery_witness :
    MerkleProof.VerifyProof (forgedBlob 4096 3 c3root) = true ∧
      node1 ∈ (PoPConsensus.ValidateResponses c3state).2.passingNodes :=
  C3_empty_offset_forgery 4096 3 c3root c3state node1
    (show c3root.data < 256 ^ c3root.size by decide) (by decide) (by decide)
    (by decide) (by decide) (by decide)

/-! ## C5 -/

/-- **C5 counterexample.**  Block-level validation does *not* reject blocks
with zero PopProofs: `checkBlockRules` accepts `c5block` (its PopProof loop
is vacuous), and `Block::verifyPopChallenge` returns true unconditionally —
no substring comparison with the block challenge exists anywhere in the
validation path. -/
theorem C5_zero_popproof_block_accepted :
    c5block.popProofs = [] ∧
      BlockValidation.checkBlockRules c5block 0 = true ∧
      BlockValidation.verifyPopChallenge c5block = true := by
  decide

/-- **C5 amended.**  Block-level validation never binds proofs to the block
challenge: `verifyPopChallenge` is constantly true, `checkBlockRules` is
invariant under replacing the challenge string, and — when the header checks
pass and the optional merkle-root fields are absent or consistent — it
accepts the block (zero PopProofs included) iff every carried PopProof has
non-empty `nodePublicKey`, `merkleRootChunks`, `signature` and a non-empty
cid list. -/
theorem C5_amended_no_challenge_binding :
    (∀ blk : BlockValidation.Block, BlockValidation.verifyPopChallenge blk = true) ∧
      (∀ (blk : BlockValidation.Block) (now : ℕ) (c : Buffer),
        BlockValidation.checkBlockRules
            { blk with header := { blk.header with blockChallenge := c } } now =
          BlockValidation.checkBlockRules blk now) ∧
      (∀ (blk : BlockValidation.Block) (now : ℕ),
        ¬ (0 < blk.header.blockHeight ∧ blk.header.prevBlockHash.size = 0) →
        blk.header.timestamp ≤ now + 7200 →
        (blk.header.merkleRootTx.size = 0 ∨
          BlockValidation.computeTxMerkleRoot blk.transactions = blk.header.merkleRootTx) →
        (blk.header.merkleRootPoP.size = 0 ∨
          BlockValidation.computePopMerkleRoot blk.popProofs = blk.header.merkleRootPoP) →
        (BlockValidation.checkBlockRules blk now = true ↔
          ∀ pp ∈ blk.popProofs, BlockValidation.verifyPopProof pp = true)) := by
  refine ⟨fun _ => rfl, fun blk now c => rfl, fun blk now hh ht htx hpop => ?_⟩
  unfold BlockValidation.checkBlockRules
  rw [if_neg hh, if_neg (by omega)]
  rw [if_neg (by rcases htx with h | h
                 · exact fun hc => hc.1 h
                 · exact fun hc => hc.2 h)]
  rw [if_neg (by rcases hpop with h | h
                 · exact fun hc => hc.1 h
                 · exact fun hc => hc.2 h)]
  exact List.all_eq_true

/-- **C5 amended, witness**: the acceptance criterion of
`C5_amended_no_challenge_binding` instantiated at `c5blockP` (one well-formed
PopProof whose signature does not contain the challenge) and `now = 0`. -/
theorem C5_amended_witness :
    BlockValidation.checkBlockRules c5blockP 0 = true ↔
      ∀ pp ∈ c5blockP.popProofs, BlockValidation.verifyPopProof pp = true :=
  C5_amended_no_challenge_binding.2.2 c5blockP 0 (by decide) (by decide)
    (Or.inl (by decide)) (Or.inl (by decide))

/-! ## C6 -/

/-- **C6** (confirmed).  Malformed input is rejected, never escapes bounds,
and never aborts a round: (1) a successful decode ends inside the buffer —
no length or count field makes the parser read past the end; (2) a failed
decode makes `VerifyProof` return false (the C++ `return false` paths);
(3) truncating a decodable blob anywhere before its final read position
makes decoding fail and `VerifyProof` return false, with no exception to
throw; (4) inside `ValidateResponses`, each node is adjudicated solely on
its own collected response — a node is in `passingNodes` iff its own bytes
pass, so one malformed response never affects the other nodes or aborts the
round. -/
theorem C6_truncation_rejected_and_round_survives :
    (∀ (b : Buffer) (pp : MerkleProof.ParsedProof) (q : ℕ),
        MerkleProof.parseProof b = some (pp, q) → q ≤ b.size) ∧
      (∀ b : Buffer, MerkleProof.parseProof b = none →
        MerkleProof.VerifyProof b = false) ∧
      (∀ (b : Buffer) (pp : MerkleProof.ParsedProof) (q l : ℕ),
        MerkleProof.parseProof b = some (pp, q) → l ≤ b.size → l < q →
          MerkleProof.parseProof (b.take l) = none ∧
            MerkleProof.VerifyProof (b.take l) = false) ∧
      (∀ (st : PoPConsensus.State) (x : Buffer), st.currentChallengeRoot.size ≠ 0 →
        (x ∈ (PoPConsensus.ValidateResponses st).2.passingNodes ↔
          ∃ d, (x, d) ∈ st.challengeNodeResponses ∧
            PoPConsensus.responsePasses st d = true)) := by
  refine ⟨fun b pp q h => (MerkleProof.parseProof_take h).1,
    fun b h => by unfold MerkleProof.VerifyProof; rw [h],
    fun b pp q l h hl hlq => ?_, fun st x hroot => ?_⟩
  · have hn : MerkleProof.parseProof (b.take l) = none := by
      rw [(MerkleProof.parseProof_take h).2 l hl, if_neg (by omega)]
    refine ⟨hn, ?_⟩
    unfold MerkleProof.VerifyProof
    rw [hn]
  · unfold PoPConsensus.ValidateResponses
    rw [if_neg (by omega)]
    show x ∈ List.foldl _ [] st.challengeNodeResponses ↔ _
    rw [mem_passing_foldl st st.challengeNodeResponses [] x]
    simp

/-- **C6, witness**: the truncation branch of
`C6_truncation_rejected_and_round_survives` at a concrete 18-byte decodable
blob cut after 10 bytes. -/
theorem C6_truncation_witness :
    MerkleProof.parseProof ((forgedBlob 7 9 (Buffer.ofList [120, 121])).take 10) = none ∧
      MerkleProof.VerifyProof ((forgedBlob 7 9 (Buffer.ofList [120, 121])).take 10) = false :=
  C6_truncation_rejected_and_round_survives.2.2.1 (forgedBlob 7 9 (Buffer.ofList [120, 121]))
    ⟨7, 9, [], Buffer.ofList [120, 121]⟩ 18 10 (by decide) (by decide) (by decide)

/-! ## C7 -/

/-- **C7 counterexample.**  `c7blob` is the honest proof blob over the
8193-byte file and the two valid offsets `[0, 2]`; `c7tampered` flips one
byte of offset 0's embedded chunk data (byte 20: 0 becomes 1).  The claim
says the other offset's claim is unaffected in the sense that it *still
verifies against the stored root* — but the decoded claim at index 1 (for
offset 2) does not verify in the tampered blob, and in fact never verified
in the untampered blob either: offset 2 is a trailing odd chunk, so its
honest claim already fails (the C1 index-halving bug). -/
theorem C7_tamper_counterexample :
    c7blob = MerkleProof.GenerateProof file8193 [0, 2] ∧
      c7tampered = c7blob.setByte 20 1 ∧
      c7blob.byteAt 20 = 0 ∧
      c7tampered.byteAt 20 = 1 ∧
      (MerkleProof.parseProof c7blob).map (fun pq => pq.1.ops.length) = some 2 ∧
      claimOutcome c7tampered 1 = some false ∧
      claimOutcome c7blob 1 = some false := by
  decide!

/-- **C7 amended.**  Verification adjudicates each decoded offset claim
independently against the stored root (`VerifyProof` is the conjunction of
the per-claim checks), and for the concrete two-offset blob over the
8193-byte file: flipping one byte of offset 0's chunk data is detected —
offset 0's claim goes from passing to failing — while the decoded root, the
decoded claim of the other offset, and that claim's (already failing, per
C1) outcome are byte-for-byte unchanged. -/
theorem C7_amended_tamper_detection :
    (∀ (b : Buffer) (pp : MerkleProof.ParsedProof) (q : ℕ),
        MerkleProof.parseProof b = some (pp, q) →
        MerkleProof.VerifyProof b = pp.ops.all (MerkleProof.checkOffset pp.root)) ∧
      claimOutcome c7blob 0 = some true ∧
      claimOutcome c7tampered 0 = some false ∧
      (MerkleProof.parseProof c7tampered).map (fun pq => pq.1.root) =
        (MerkleProof.parseProof c7blob).map (fun pq => pq.1.root) ∧
      (MerkleProof.parseProof c7tampered).map (fun pq => pq.1.ops[1]?) =
        (MerkleProof.parseProof c7blob).map (fun pq => pq.1.ops[1]?) ∧
      claimOutcome c7tampered 1 = claimOutcome c7blob 1 := by
  refine ⟨fun b pp q h => ?_, ?_⟩
  · unfold MerkleProof.VerifyProof
    rw [h]
  · decide!

/-- **C7 amended, witness**: the per-claim-conjunction branch of
`C7_amended_tamper_detection` at a concrete 17-byte decodable blob. -/
theorem C7_amended_witness :
    MerkleProof.VerifyProof (forgedBlob 2 5 (Buffer.ofList [119])) =
      (MerkleProof.ParsedProof.mk 2 5 [] (Buffer.ofList [119])).ops.all
        (MerkleProof.checkOffset (MerkleProof.ParsedProof.mk 2 5 []
          (Buffer.ofList [119])).root) :=
  C7_amended_tamper_detection.1 (forgedBlob 2 5 (Buffer.ofList [119]))
    ⟨2, 5, [], Buffer.ofList [119]⟩ 17 (by decide)

end RxRevolt
